import Mathlib

/-!
Verification of the Outbound_Mac segment-cloning and approval pipeline.

This file shallowly embeds the pure control/data logic of
`clone_publish.py`, `approve_sonar.py`, `queue_segments.py` and
`sonar_apply.py` into Lean and proves properties of the embedding.

Conventions of the embedding:
* Python strings are Lean `String`s; the regex-based substitutions of the
  source are reimplemented as explicit left-to-right scanners over
  `List Char`, mirroring `re.sub` semantics (leftmost, non-overlapping,
  continue after the consumed match) for the concrete patterns the source
  uses.
* Remote calls are modelled by oracles (explicit response values / response
  scripts); `time.sleep` and call attempts become explicit events.
* Machine integers are `Int`/`Nat` (no overflow is relevant here).
-/

namespace Outbound

/-! ## Market tables (clone_publish.py) -/

/-- Mapping of marketplace id to market code, from MP_CODE_BY_ID. -/
def MP_CODE_BY_ID (mp : Int) : Option String :=
  if mp = 3 then some "UK"
  else if mp = 4 then some "DE"
  else if mp = 5 then some "FR"
  else if mp = 35691 then some "IT"
  else if mp = 44551 then some "ES"
  else none

/-- Mapping of marketplace id to hygiene segment id, from HYGIENE_BY_MP. -/
def HYGIENE_BY_MP (mp : Int) : Option Int :=
  if mp = 3 then some 1266805602
  else if mp = 4 then some 1266778402
  else if mp = 5 then some 1266807602
  else if mp = 35691 then some 1266817602
  else if mp = 44551 then some 1266813602
  else none

/-- Set of the known hygiene ids, from KNOWN_HYGIENE_IDS. -/
def KNOWN_HYGIENE_IDS : List Int :=
  [1266805602, 1266778402, 1266807602, 1266817602, 1266813602]

/-! ## String scanners used by _transform_name_for_market

The source builds three substitution strategies from Python regexes:
token-boundary substitution, word-boundary substitution and the raw
str.replace.  Each is embedded as a fuel-driven left-to-right scanner; the
fuel is the length of the scanned string, which suffices because every
match consumes at least one character (the market codes are non-empty). -/

/-- Separator class of the token pattern: space, underscore, hyphen. -/
def isSepChar (c : Char) : Bool := c = ' ' || c = '_' || c = '-'

/-- Word character in the sense of the regex word boundary (ASCII scope). -/
def isWordCharPy (c : Char) : Bool := c.isAlphanum || c = '_'

/-- Substring test, mirroring the Python `in` operator on strings. -/
def containsSub : List Char → List Char → Bool
  | code, [] => code.isEmpty
  | code, l@(_ :: r) => code.isPrefixOf l || containsSub code r

/-- Right boundary group of the token pattern: a separator (consumed) or
end of string. Returns (consumed text, remainder). -/
def tokenRight : List Char → Option (List Char × List Char)
  | [] => some ([], [])
  | c :: r => if isSepChar c then some ([c], r) else none

/-- Separator alternative of the token pattern at the current position:
a separator character, the code, and the right boundary group. Returns
(replacement text, remainder after the match). -/
def tokenMatchSep (code dst : List Char) (l : List Char) :
    Option (List Char × List Char) :=
  match l with
  | [] => none
  | c :: r =>
    if isSepChar c && code.isPrefixOf r then
      match tokenRight (r.drop code.length) with
      | some pr => some (c :: (dst ++ pr.1), pr.2)
      | none => none
    else none

/-- Try to match the token pattern at the current position. `first` is true
only at the very start of the string (where the start anchor can match);
when the anchor alternative fails on its right boundary, the engine
backtracks into the separator alternative. Returns (replacement text,
remainder after the match). -/
def tokenMatchAt (code dst : List Char) (first : Bool) (l : List Char) :
    Option (List Char × List Char) :=
  if code.isEmpty then none
  else if first && code.isPrefixOf l then
    match tokenRight (l.drop code.length) with
    | some pr => some (dst ++ pr.1, pr.2)
    | none => tokenMatchSep code dst l
  else tokenMatchSep code dst l

/-- Scanner for the token-boundary substitution. -/
def tokenSubGo (code dst : List Char) : Nat → Bool → List Char → List Char
  | 0, _, l => l
  | fuel+1, first, l =>
    match tokenMatchAt code dst first l with
    | some (rep, rest) => rep ++ tokenSubGo code dst fuel false rest
    | none =>
      match l with
      | [] => []
      | c :: r => c :: tokenSubGo code dst fuel false r

/-- Token-boundary substitution of the source market code (strategy 1). -/
def tokenSub (code dst s : String) : String :=
  String.mk (tokenSubGo code.data dst.data s.data.length true s.data)

/-- Left word boundary: start of string or a non-word character before. -/
def wordBoundaryLeft : Option Char → Bool
  | none => true
  | some c => !(isWordCharPy c)

/-- Right word boundary: end of string or a non-word character after. -/
def wordBoundaryRight : List Char → Bool
  | [] => true
  | c :: _ => !(isWordCharPy c)

/-- Scanner for the word-boundary substitution; `prev` is the character
just before the current position in the original string. -/
def wordSubGo (code dst : List Char) : Nat → Option Char → List Char → List Char
  | 0, _, l => l
  | fuel+1, prev, l =>
    if !code.isEmpty && code.isPrefixOf l && wordBoundaryLeft prev
        && wordBoundaryRight (l.drop code.length) then
      dst ++ wordSubGo code dst fuel (some (code.getLastD ' ')) (l.drop code.length)
    else
      match l with
      | [] => []
      | c :: r => c :: wordSubGo code dst fuel (some c) r

/-- Word-boundary substitution of the source market code (strategy 2). -/
def wordSub (code dst s : String) : String :=
  String.mk (wordSubGo code.data dst.data s.data.length none s.data)

/-- Scanner for the raw replacement, mirroring str.replace for a non-empty
needle (leftmost, non-overlapping). -/
def rawReplaceGo (code dst : List Char) : Nat → List Char → List Char
  | 0, l => l
  | fuel+1, l =>
    if !code.isEmpty && code.isPrefixOf l then
      dst ++ rawReplaceGo code dst fuel (l.drop code.length)
    else
      match l with
      | [] => []
      | c :: r => c :: rawReplaceGo code dst fuel r

/-- Raw substring replacement (strategy 3). -/
def rawReplace (code dst s : String) : String :=
  String.mk (rawReplaceGo code.data dst.data s.data.length s.data)

/-- Substring containment on strings. -/
def containsSubStr (code s : String) : Bool := containsSub code.data s.data

/-- Embedding of _transform_name_for_market (clone_publish.py).
The Python function also accepts None for the name; None and the empty
string take the same falsy branch, represented here by the empty string. -/
def transformNameForMarket (sourceName srcCode dstCode : String) : String :=
  if sourceName = "" then dstCode
  else if tokenSub srcCode dstCode sourceName ≠ sourceName then
    tokenSub srcCode dstCode sourceName
  else if wordSub srcCode dstCode sourceName ≠ sourceName then
    wordSub srcCode dstCode sourceName
  else if containsSubStr srcCode sourceName then
    rawReplace srcCode dstCode sourceName
  else sourceName ++ " " ++ dstCode

/-! ## Rule tree model (clone_publish.py, basic query object)

The source works on duck-typed nested dicts:
basic = \x7bmarketplaceId, include: \x7brules: [...]\x7d, exclude: \x7brules: [...]\x7d\x7d,
where each rule may carry a constraints list and a subRules list, and a
sub-rule is itself such a dict (so arbitrary nesting is representable).
Constraint values are scalars that are either ints or strings. -/

/-- Scalar constraint value: int or string, as in the JSON payloads. -/
inductive SVal : Type
  | i (n : Int)
  | s (t : String)
  deriving DecidableEq

/-- Constraint dict: defId plus a values list. -/
structure Constraint : Type where
  defId : String
  values : List SVal
  deriving DecidableEq

/-- Rule dict: its own constraints plus nested subRules (the dict shape
puts no bound on the nesting depth). -/
inductive Rule : Type
  | mk (constraints : List Constraint) (subRules : List Rule)

mutual

/-- Decidable equality for rules (the nested occurrence of List Rule rules
out the derive handler). -/
def Rule.decEq : (a b : Rule) → Decidable (a = b)
  | .mk cs rs, .mk cs2 rs2 =>
    match inferInstanceAs (Decidable (cs = cs2)) with
    | isFalse h => isFalse (by intro he; cases he; exact h rfl)
    | isTrue h1 =>
      match Rule.decEqList rs rs2 with
      | isFalse h => isFalse (by intro he; cases he; exact h rfl)
      | isTrue h2 => isTrue (by rw [h1, h2])

/-- Decidable equality for rule lists. -/
def Rule.decEqList : (a b : List Rule) → Decidable (a = b)
  | [], [] => isTrue rfl
  | [], _ :: _ => isFalse (by intro h; cases h)
  | _ :: _, [] => isFalse (by intro h; cases h)
  | r :: rs, r2 :: rs2 =>
    match Rule.decEq r r2, Rule.decEqList rs rs2 with
    | isTrue h1, isTrue h2 => isTrue (by rw [h1, h2])
    | isFalse h, _ => isFalse (by intro he; cases he; exact h rfl)
    | _, isFalse h => isFalse (by intro he; cases he; exact h rfl)

end

instance : DecidableEq Rule := Rule.decEq

/-- Constraints list of a rule. -/
def Rule.constraints : Rule → List Constraint
  | .mk cs _ => cs

/-- Direct sub-rules of a rule. -/
def Rule.subRules : Rule → List Rule
  | .mk _ rs => rs

/-- Basic query object. The include/exclude wrappers carry only their
rules list, which is inlined here; marketplaceId is the numeric top-level
field (the int() coercion in _detect_source_marketplace is the identity on
the numeric values this tool writes). -/
structure Basic : Type where
  marketplaceId : Option Int
  includeRules : List Rule
  excludeRules : List Rule
  deriving DecidableEq

/-! ## _update_basic_marketplace -/

/-- Rewriting of one constraint value: strings stay strings (str(dst_mp)),
everything else becomes the int dst_mp. -/
def fixMpVal (dstMp : Int) : SVal → SVal
  | .s _ => .s (toString dstMp)
  | .i _ => .i dstMp

/-- Body of the nested _fix_constraints: rewrites the values of every
constraint with defId marketplaceId in the given rule (touching only this
rule's own constraints, not its sub-rules). -/
def fixConstraintsMp (dstMp : Int) : Rule → Rule
  | .mk cs rs =>
    .mk (cs.map fun c =>
          if c.defId = "marketplaceId" then
            { c with values := c.values.map (fixMpVal dstMp) }
          else c) rs

/-- Per top-level rule part of _update_basic_marketplace: the walk calls
_fix_constraints on each direct sub-rule and on the rule itself, and does
not descend any further. -/
def fixTopRuleMp (dstMp : Int) : Rule → Rule
  | .mk cs rs =>
    match fixConstraintsMp dstMp (.mk cs rs) with
    | .mk cs2 _ => .mk cs2 (rs.map (fixConstraintsMp dstMp))

/-- Embedding of _update_basic_marketplace: sets basic.marketplaceId and
rewrites marketplaceId constraints in the top-level include/exclude rules
and their direct sub-rules. The src_mp argument is accepted but, as in the
source, not consulted by the rewriting. -/
def updateBasicMarketplace (b : Basic) (_srcMp dstMp : Int) : Basic :=
  { marketplaceId := some dstMp
    includeRules := b.includeRules.map (fixTopRuleMp dstMp)
    excludeRules := b.excludeRules.map (fixTopRuleMp dstMp) }

/-! ## _replace_hygiene_in_basic -/

/-- Value of str(v) when str(v).isdigit() holds: a non-negative int, or a
non-empty all-digit string (parsed). -/
def svalDigitVal : SVal → Option Int
  | .i n => if 0 ≤ n then some n else none
  | .s t =>
    if t ≠ "" && t.data.all Char.isDigit then
      some (Int.ofNat (t.data.foldl (fun a c => a * 10 + (c.toNat - 48)) 0))
    else none

/-- Lowercasing as used on the defId keys (ASCII scope, matching the
all-ASCII keys this code compares against). -/
def strToLower (s : String) : String := String.mk (s.data.map Char.toLower)

/-- Trigger test of _maybe_replace for one constraint: a segment-id key,
a non-empty values list, and some value that is a digit string whose int
value is a known hygiene id. -/
def hygTriggers (c : Constraint) : Bool :=
  (strToLower c.defId = "segment_id" || strToLower c.defId = "segmentid")
    && !c.values.isEmpty
    && c.values.any (fun v =>
        match svalDigitVal v with
        | some n => KNOWN_HYGIENE_IDS.contains n
        | none => false)

/-- Replacement of one constraint, returning the new constraint, whether
it triggered, and the recorded old ids (all digit values of the triggered
constraint, in order). -/
def hygFixConstraint (newHyg : Int) (c : Constraint) : Constraint × Bool × List Int :=
  if hygTriggers c then
    ({ c with values := [.i newHyg] }, true, c.values.filterMap svalDigitVal)
  else (c, false, [])

/-- Body of _maybe_replace over one rule's own constraints. -/
def hygFixRuleOwn (newHyg : Int) : Rule → Rule × Bool × List Int
  | .mk cs rs =>
    let step := cs.map (hygFixConstraint newHyg)
    (.mk (step.map (·.1)) rs,
     step.any (·.2.1),
     (step.map (·.2.2)).flatten)

/-- Walk order of _replace_hygiene_in_basic for one top-level rule: first
the rule itself, then each of its direct sub-rules (no deeper descent). -/
def hygFixTopRule (newHyg : Int) : Rule → Rule × Bool × List Int
  | .mk cs rs =>
    let own := hygFixRuleOwn newHyg (.mk cs rs)
    let subs := rs.map (hygFixRuleOwn newHyg)
    (.mk own.1.constraints (subs.map (·.1)),
     own.2.1 || subs.any (·.2.1),
     own.2.2 ++ (subs.map (·.2.2)).flatten)

/-- Walk over a rules list, concatenating the recorded old ids in order. -/
def hygFixRules (newHyg : Int) (rules : List Rule) : List Rule × Bool × List Int :=
  let step := rules.map (hygFixTopRule newHyg)
  (step.map (·.1), step.any (·.2.1), (step.map (·.2.2)).flatten)

/-- Embedding of _replace_hygiene_in_basic: include rules first, then
exclude rules; returns (new basic, replaced flag, recorded old ids). -/
def replaceHygieneInBasic (b : Basic) (newHyg : Int) : Basic × Bool × List Int :=
  let inc := hygFixRules newHyg b.includeRules
  let exc := hygFixRules newHyg b.excludeRules
  ({ b with includeRules := inc.1, excludeRules := exc.1 },
   inc.2.1 || exc.2.1,
   inc.2.2 ++ exc.2.2)

/-! ## _replace_hygiene_in_querystring -/

/-- Whitespace class of the regex patterns (ASCII scope). -/
def isSpacePy (c : Char) : Bool :=
  c = ' ' || c = '\t' || c = '\n' || c = '\r' || c = '\x0b' || c = '\x0c'

/-- Case-insensitive match of a literal word against the head of a list;
returns the matched text in its original case plus the remainder. -/
def ciPrefixMatch : List Char → List Char → Option (List Char × List Char)
  | [], l => some ([], l)
  | _ :: _, [] => none
  | w :: ws, c :: cs =>
    if c.toLower = w.toLower then
      (ciPrefixMatch ws cs).map (fun pr => (c :: pr.1, pr.2))
    else none

/-- Try to match segment(  digits  ) at the current position (the word
segment case-insensitively, as in the source pattern). Returns
(text before the digits, digits, text after the digits, remainder). -/
def segMatchAt (l : List Char) : Option (List Char × List Char × List Char × List Char) :=
  match ciPrefixMatch "segment".data l with
  | none => none
  | some (seg, rest1) =>
    match rest1 with
    | '(' :: rest2 =>
      let ws1 := rest2.takeWhile isSpacePy
      let rest3 := rest2.dropWhile isSpacePy
      let digits := rest3.takeWhile Char.isDigit
      let rest4 := rest3.dropWhile Char.isDigit
      if digits.isEmpty then none
      else
        let ws2 := rest4.takeWhile isSpacePy
        match rest4.dropWhile isSpacePy with
        | ')' :: rest5 => some (seg ++ '(' :: ws1, digits, ws2 ++ [')'], rest5)
        | _ => none
    | _ => none

/-- Scanner of _replace_hygiene_in_querystring: every match of the pattern
is consumed; a match whose digits equal the decimal text of one of the old
ids is rewritten to the target and counted, other matches are kept. -/
def hygQsGo (oldStrs : List (List Char)) (tgt : Int) : Nat → List Char → List Char × Nat
  | 0, l => (l, 0)
  | fuel+1, l =>
    match segMatchAt l with
    | some (pre, digits, post, rest) =>
      let t := hygQsGo oldStrs tgt fuel rest
      if oldStrs.contains digits then
        (pre ++ (toString tgt).data ++ post ++ t.1, t.2 + 1)
      else
        (pre ++ digits ++ post ++ t.1, t.2)
    | none =>
      match l with
      | [] => ([], 0)
      | c :: r =>
        let t := hygQsGo oldStrs tgt fuel r
        (c :: t.1, t.2)

/-- Embedding of _replace_hygiene_in_querystring. A falsy target (absent
or 0) or an empty old-id list short-circuits to (qs, 0). -/
def replaceHygieneInQuerystring (qs : String) (oldHygieneIds : List Int)
    (targetHygiene : Option Int) : String × Nat :=
  match targetHygiene with
  | none => (qs, 0)
  | some tgt =>
    if tgt = 0 || oldHygieneIds.isEmpty then (qs, 0)
    else
      let oldStrs := oldHygieneIds.map (fun n => (toString n).data)
      let r := hygQsGo oldStrs tgt qs.data.length qs.data
      (String.mk r.1, r.2)

/-! ## _replace_marketplace_in_querystring -/

/-- Match of the tail of the marketplaceId pattern after the equals signs:
optional quote, digits, the same closing quote. Returns
(quote text, digits, remainder). -/
def mpTailMatch (l : List Char) : Option (List Char × List Char × List Char) :=
  match l with
  | c :: r =>
    if c = '"' || c = '\x27' then
      let digits := r.takeWhile Char.isDigit
      let rest := r.dropWhile Char.isDigit
      if digits.isEmpty then none
      else match rest with
        | c2 :: rest2 => if c2 = c then some ([c], digits, rest2) else none
        | [] => none
    else
      let digits := l.takeWhile Char.isDigit
      let rest := l.dropWhile Char.isDigit
      if digits.isEmpty then none else some ([], digits, rest)
  | [] => none

/-- Whitespace span followed by the quote/digits tail. Returns
(whitespace, quote text, digits, remainder). -/
def mpEqTail (r : List Char) : Option (List Char × List Char × List Char × List Char) :=
  let ws2 := r.takeWhile isSpacePy
  match mpTailMatch (r.dropWhile isSpacePy) with
  | some (q, digits, rest) => some (ws2, q, digits, rest)
  | none => none

/-- Try to match the marketplaceId pattern at the current position; prev is
the character before the position (the pattern starts with a word
boundary, and marketplaceId is matched case-sensitively here). The one- or
two-equals repetition is greedy with backtracking: two equals signs are
preferred, falling back to one. Returns
(text before the quote group, quote, digits, remainder). -/
def mpMatchAt (prev : Option Char) (l : List Char) :
    Option (List Char × List Char × List Char × List Char) :=
  if !(wordBoundaryLeft prev) then none
  else if "marketplaceId".data.isPrefixOf l then
    let rest1 := l.drop "marketplaceId".data.length
    let ws1 := rest1.takeWhile isSpacePy
    let rest2 := rest1.dropWhile isSpacePy
    match rest2 with
    | '=' :: '=' :: r2 =>
      (match mpEqTail r2 with
       | some (ws2, q, digits, rest) =>
         some ("marketplaceId".data ++ ws1 ++ '=' :: '=' :: ws2, q, digits, rest)
       | none =>
         match mpEqTail ('=' :: r2) with
         | some (ws2, q, digits, rest) =>
           some ("marketplaceId".data ++ ws1 ++ '=' :: ws2, q, digits, rest)
         | none => none)
    | '=' :: r2 =>
      (match mpEqTail r2 with
       | some (ws2, q, digits, rest) =>
         some ("marketplaceId".data ++ ws1 ++ '=' :: ws2, q, digits, rest)
       | none => none)
    | _ => none
  else none

/-- Scanner of _replace_marketplace_in_querystring: a match whose digits
equal the decimal text of src_mp is rewritten to dst_mp and counted. After
a match, scanning resumes after it; the character before the resume point
is the closing quote if present, else the last digit. -/
def mpQsGo (srcStr : List Char) (dstMp : Int) :
    Nat → Option Char → List Char → List Char × Nat
  | 0, _, l => (l, 0)
  | fuel+1, prev, l =>
    match mpMatchAt prev l with
    | some (pre, q, digits, rest) =>
      let prevNew := some (if q.isEmpty then digits.getLastD '0' else q.getLastD '0')
      let t := mpQsGo srcStr dstMp fuel prevNew rest
      if digits = srcStr then
        (pre ++ q ++ (toString dstMp).data ++ q ++ t.1, t.2 + 1)
      else
        (pre ++ q ++ digits ++ q ++ t.1, t.2)
    | none =>
      match l with
      | [] => ([], 0)
      | c :: r =>
        let t := mpQsGo srcStr dstMp fuel (some c) r
        (c :: t.1, t.2)

/-- Embedding of _replace_marketplace_in_querystring. -/
def replaceMarketplaceInQuerystring (qs : String) (srcMp dstMp : Int) : String × Nat :=
  let r := mpQsGo (toString srcMp).data dstMp qs.data.length none qs.data
  (String.mk r.1, r.2)

/-! ## _scan_notes_for_manual_checks -/

/-- Embedding of _scan_notes_for_manual_checks: pure substring heuristics
on the rewritten query string. -/
def scanNotesForManualChecks (qs : String) : List String :=
  (if containsSubStr ".co.uk" qs
      && (containsSubStr "marketplaceId = 4" qs || containsSubStr "marketplaceId == 4" qs)
   then [".co.uk gefunden, aber MP=DE – URLs prüfen"] else [])
  ++ (if containsSubStr ".de" qs
      && (containsSubStr "marketplaceId = 3" qs || containsSubStr "marketplaceId == 3" qs)
      then [".de gefunden, aber MP=UK – URLs prüfen"] else [])
  ++ (if containsSubStr "languageCode" qs
      then ["languageCode im Query gefunden – manuell prüfen"] else [])

/-! ## Pure core of _clone_to_market_variation

The remote create call and the payload assembly around the transformation
are I/O; the transformation itself (detect source marketplace, rename,
rewrite the basic tree, mirror into the query string, collect notes) is
embedded below. -/

/-- Market code of a marketplace id: the table entry, or the decimal id
itself as fallback (MP_CODE_BY_ID.get(mp, str(mp))). -/
def mpCodeOf (mp : Int) : String := (MP_CODE_BY_ID mp).getD (toString mp)

/-- Loaded query object: name, basic tree, serialized query string. -/
structure QueryJson : Type where
  name : Option String
  basic : Basic
  queryString : String

/-- Result of the pure transformation part. -/
structure TransformResult : Type where
  newName : String
  basic : Basic
  queryString : String
  notes : List String
  countMp : Nat
  countHyg : Nat
  oldHygIds : List Int
  replacedHyg : Bool
  deriving DecidableEq

/-- Pure transformation core of _clone_to_market_variation. Returns none
in the two non-success paths: undetectable source marketplace (the
NoSourceMP early return), and a triggered hygiene replacement for a target
marketplace that has no hygiene id (where the source would raise on
int(None)); for the market table in use the latter cannot happen. The
baseSegId only feeds the BE_ name fallback. -/
def transformCore (qj : QueryJson) (targetMp : Int) (baseSegId : String) :
    Option TransformResult :=
  match qj.basic.marketplaceId with
  | none => none
  | some srcMp =>
    let srcCode := mpCodeOf srcMp
    let dstCode := mpCodeOf targetMp
    let newName := transformNameForMarket (qj.name.getD ("BE_" ++ baseSegId)) srcCode dstCode
    let basic1 := updateBasicMarketplace qj.basic srcMp targetMp
    match HYGIENE_BY_MP targetMp with
    | some tgtHyg =>
      let hyg := replaceHygieneInBasic basic1 tgtHyg
      let qsMp := replaceMarketplaceInQuerystring qj.queryString srcMp targetMp
      let qsHyg := replaceHygieneInQuerystring qsMp.1 hyg.2.2 (some tgtHyg)
      some { newName := newName
             basic := hyg.1
             queryString := qsHyg.1
             notes := scanNotesForManualChecks qsHyg.1
             countMp := qsMp.2
             countHyg := qsHyg.2
             oldHygIds := hyg.2.2
             replacedHyg := hyg.2.1 }
    | none =>
      if (replaceHygieneInBasic basic1 0).2.1 then none
      else
        let qsMp := replaceMarketplaceInQuerystring qj.queryString srcMp targetMp
        some { newName := newName
               basic := basic1
               queryString := qsMp.1
               notes := scanNotesForManualChecks qsMp.1
               countMp := qsMp.2
               countHyg := 0
               oldHygIds := []
               replacedHyg := false }

/-- End-to-end scenario A input: DE source with a marketplaceId constraint
and the DE hygiene constraint. -/
def scenarioAQj : QueryJson :=
  { name := some "DE_Promo_X"
    basic :=
      { marketplaceId := some 4
        includeRules :=
          [Rule.mk [⟨"marketplaceId", [.i 4]⟩] [],
           Rule.mk [⟨"segment_id", [.i 1266778402]⟩] []]
        excludeRules := [] }
    queryString := "segment(1266778402) and marketplaceId == 4" }

/-! ## approve_sonar.py: auth-refresh wrapper

The wrapper around one PUT/GET call is embedded status-driven (response
bodies only matter for error text and are elided). The source intends a
lock-guarded selenium refresh on 401/403, but the name _REFRESH_LOCK used
in the with statement is never bound anywhere in the repository — the
module only does from threading import Lock, no _REFRESH_LOCK = Lock()
exists — so the 401/403 handler raises NameError on its first statement,
before any refresh, cookie merge or retry can happen. -/

/-- Cookie jar as an association list cookie name → value. -/
abbrev Cookies := List (String × String)

/-- Events a wrapper call emits: HTTP attempts of the wrapped call and
invocations of the selenium refresh (which the shipped code never
reaches). -/
inductive AuthEvent : Type
  | attempt
  | refresh
  deriving DecidableEq

/-- Status-level outcome of _put_empty and of the GET body: a status of
400 or above raises (raise_for_status), anything else returns. -/
def putOutcome (status : Nat) : Except Nat Unit :=
  if 400 ≤ status then .error status else .ok ()

/-- Result of one wrapper call: normal return, a propagated HTTPError, or
the NameError raised by evaluating the unbound _REFRESH_LOCK. -/
inductive WrappedResult : Type
  | ok
  | httpError (status : Nat)
  | nameErrorRefreshLock
  deriving DecidableEq

/-- Embedding of _put_empty_with_refresh (and of the structurally
identical _get_json_with_refresh) as shipped: a successful wrapped call
returns; an HTTPError with status 401/403 enters the refresh branch,
whose first statement evaluates the unbound name _REFRESH_LOCK and raises
NameError — before any selenium refresh, cookie merge or retry; any other
HTTPError is re-raised unchanged. The session jar is never modified. -/
def putEmptyWithRefresh (first : Nat) (jar : Cookies) :
    WrappedResult × Cookies × List AuthEvent :=
  match putOutcome first with
  | .ok _ => (.ok, jar, [.attempt])
  | .error s =>
    if s = 401 || s = 403 then (.nameErrorRefreshLock, jar, [.attempt])
    else (.httpError s, jar, [.attempt])

/-- Events of one caller (independent of the jar). -/
def callerEvents (first : Nat) : List AuthEvent :=
  (putEmptyWithRefresh first []).2.2

/-- Event trace of several callers, in one serialization. -/
def serializedEvents (firsts : List Nat) : List AuthEvent :=
  (firsts.map callerEvents).flatten

/-- Number of refresh invocations in a trace. -/
def countRefresh (evs : List AuthEvent) : Nat :=
  (evs.filter (fun e => e = AuthEvent.refresh)).length

/-! ## sonar_apply.py: approval state machine and 2-phase batch -/

/-- Poll attempt bound of the verify loop (METRICS_POLL_MAX_ATTEMPTS_APPROVED). -/
def METRICS_POLL_MAX_ATTEMPTS_APPROVED : Nat := 12

/-- Poll attempt bound of the upload sentinel (METRICS_POLL_MAX_ATTEMPTS_UPLOAD). -/
def METRICS_POLL_MAX_ATTEMPTS_UPLOAD : Nat := 12

/-- One poll of the metricsSummary endpoint: ok flag, the integer-valued
approvedRecipientsCount and uploadedRecipientsCount (absent fields read as
0 in the source), and the text recorded into last_text (raw if raw else
str(data_m)). -/
structure MetricsPoll : Type where
  ok : Bool
  apc : Int
  upl : Int
  text : String
  deriving DecidableEq

/-- Verify loop of _approve_after_upload: up to the attempt bound, record
the last snapshot text, succeed once a poll is ok with apc strictly
positive. Returns (success, last text, polls executed). -/
def verifyLoopGo (polls : Nat → MetricsPoll) :
    Nat → Nat → Option String → Bool × Option String × Nat
  | _, 0, last => (false, last, 0)
  | i, rem+1, _ =>
    let a := polls i
    if a.ok && decide (a.apc > 0) then (true, some a.text, 1)
    else
      let t := verifyLoopGo polls (i+1) rem (some a.text)
      (t.1, t.2.1, t.2.2 + 1)

/-- Full verify loop from attempt 0. -/
def verifyLoop (polls : Nat → MetricsPoll) : Bool × Option String × Nat :=
  verifyLoopGo polls 0 METRICS_POLL_MAX_ATTEMPTS_APPROVED none

/-- Python repr of a string, for snapshot texts without quotes, backslashes
or control characters (the shapes the diagnostics interpolate). -/
def pyReprStr (s : String) : String := "\x27" ++ s ++ "\x27"

/-- Interpolation of an optional last_text with the !r format: None prints
as None. -/
def pyReprOptStr : Option String → String
  | none => "None"
  | some s => pyReprStr s

/-- Remote calls a phase-2 job can make. -/
inductive SonarCall : Type
  | requestApproval
  | approve
  | metricsSummary (i : Nat)
  deriving DecidableEq

/-- Scripted environment of one _approve_after_upload run: outcomes of the
two PUTs (with their pre-formatted error/body text) and the metrics polls. -/
structure ApproveOracle : Type where
  pendingOk : Bool
  pendingErr : String
  pendingBody : String
  approvedOk : Bool
  approvedErr : String
  approvedBody : String
  polls : Nat → MetricsPoll

/-- Result of _approve_after_upload, plus the trace of remote calls made. -/
structure ApproveResult : Type where
  pendingOk : Bool
  approvedPutOk : Bool
  metricsOk : Bool
  statusText : String
  calls : List SonarCall
  deriving DecidableEq

/-- Embedding of _approve_after_upload: PENDING PUT, then APPROVED PUT,
then the bounded verify loop; the failure texts mirror the source's
f-strings (bodies truncated to 120 characters). -/
def approveAfterUpload (o : ApproveOracle) : ApproveResult :=
  if !o.pendingOk then
    { pendingOk := false, approvedPutOk := false, metricsOk := false
      statusText := "Pending-PUT failed: " ++ o.pendingErr ++ " | "
        ++ String.mk (o.pendingBody.data.take 120)
      calls := [.requestApproval] }
  else if !o.approvedOk then
    { pendingOk := true, approvedPutOk := false, metricsOk := false
      statusText := "Approved-PUT failed: " ++ o.approvedErr ++ " | "
        ++ String.mk (o.approvedBody.data.take 120)
      calls := [.requestApproval, .approve] }
  else
    let v := verifyLoop o.polls
    { pendingOk := true, approvedPutOk := true, metricsOk := v.1
      statusText :=
        if v.1 then "Success"
        else "Metrics not ready (last=" ++ pyReprOptStr v.2.1 ++ ")"
      calls := [.requestApproval, .approve] ++ (List.range v.2.2).map .metricsSummary }

/-- Result row of one job (the spreadsheet row the batch reports). -/
structure Row : Type where
  uploading : Bool
  approved : Bool
  approvedRequest : Bool
  metricsApproved : Bool
  status : String
  deriving DecidableEq

/-- Per-job context of the 2-phase orchestration. -/
structure Ctx : Type where
  okUpload : Bool
  campId : String
  mpId : Option Int
  row : Row
  deriving DecidableEq

/-- Embedding of _phase2_worker: a context without a successful phase-1
upload is returned unchanged and makes no remote call; otherwise the
approval sequence runs and its outcome is written into the row. -/
def phase2Worker (ctx : Ctx) (o : ApproveOracle) : Ctx × List SonarCall :=
  if !ctx.okUpload then (ctx, [])
  else
    let r := approveAfterUpload o
    ({ ctx with
        row := { ctx.row with
                  approvedRequest := r.pendingOk
                  approved := r.approvedPutOk
                  metricsApproved := r.metricsOk
                  status := r.statusText } },
     r.calls)

/-- Scripted environment of one _phase1_worker run. The err strings are
the already-formatted message parts of the source. -/
structure P1Oracle : Type where
  validInputs : Bool
  preflightErr : Option String
  preflightVer : Option Int
  preflightMp : Option Int
  mpFromUrl : Option Int
  uploadOk : Bool
  uploadErr : String

/-- Embedding of _phase1_worker on a fresh context row. -/
def phase1Worker (o : P1Oracle) (ctx0 : Ctx) : Ctx :=
  if !o.validInputs then
    { ctx0 with row := { ctx0.row with status := "Failed: invalid inputs" } }
  else
    match o.preflightErr, o.preflightVer with
    | some e, _ =>
      { ctx0 with row := { ctx0.row with
          status := "Failed: Bullseye preflight error: " ++ e } }
    | none, none =>
      { ctx0 with row := { ctx0.row with
          status := "Failed: Bullseye preflight error: unknown" } }
    | none, some _ =>
      match o.mpFromUrl <|> o.preflightMp with
      | none =>
        { ctx0 with row := { ctx0.row with
            status := "Failed: Could not determine marketplaceId" } }
      | some mp =>
        if !o.uploadOk then
          { ctx0 with row := { ctx0.row with
              status := "Failed: Upload error: " ++ o.uploadErr } }
        else
          { ctx0 with
              okUpload := true
              mpId := some mp
              row := { ctx0.row with uploading := true, status := "Uploaded" } }

/-- One poll of the UNAPPROVED ingestion metrics used by the sentinel:
ok flag and the integer-valued UNAPPROVED_RECIPIENTS_SUBMITTED count. -/
structure UnapPoll : Type where
  ok : Bool
  submitted : Int
  deriving DecidableEq

/-- Sentinel wait loop of phase 1b: up to the attempt bound, succeed once
a poll is ok with a strictly positive submitted count; the last fetched
metrics are recorded either way. -/
def sentinelWaitGo (polls : Nat → UnapPoll) :
    Nat → Nat → Option UnapPoll → Bool × Option UnapPoll
  | _, 0, last => (false, last)
  | i, rem+1, _ =>
    let a := polls i
    if a.ok && decide (a.submitted > 0) then (true, some a)
    else sentinelWaitGo polls (i+1) rem (some a)

/-- Full sentinel wait from attempt 0. -/
def sentinelWait (polls : Nat → UnapPoll) : Bool × Option UnapPoll :=
  sentinelWaitGo polls 0 METRICS_POLL_MAX_ATTEMPTS_UPLOAD none

/-- Embedding of the phase-1b/phase-2 part of apply_segments_to_sonar_pairs:
the sentinel is the first phase-1 context with a successful upload; its
metrics are polled once for the whole batch; a sentinel timeout only emits
a warning; phase 2 then runs the approval worker over every context (the
worker itself skips non-uploaded ones). Returns
(result contexts in input order, sentinel seen flag, warning emitted). -/
def batchPhase1bAnd2 (p1 : List Ctx) (sentinelPolls : Nat → UnapPoll)
    (orcs : Nat → ApproveOracle) : List Ctx × Bool × Bool :=
  let sentinel := p1.find? (·.okUpload)
  let sw :=
    match sentinel with
    | none => (false, false)
    | some _ =>
      let w := sentinelWait sentinelPolls
      (w.1, !w.1)
  let results := p1.mapIdx (fun i c => (phase2Worker c (orcs i)).1)
  (results, sw.1, sw.2)

/-! ## clone_publish.py: _post_json retry loop

The loop is embedded over a response script (one entry per attempt).
Sleeps become explicit events: a hinted sleep records the numeric
Retry-After value; a backoff sleep records the attempt number whose
jittered exponential backoff the source would compute. A numeric
Retry-After header is modelled as the already-parsed hint (the date form
of _parse_retry_after depends on the wall clock and is outside the pure
model). -/

/-- Attempt cap of _post_json (max_attempts default). -/
def POST_JSON_MAX_ATTEMPTS : Nat := 4

/-- Response of one attempt: an HTTP status (with optional numeric
Retry-After hint), a requests.Timeout, or another requests.RequestException. -/
inductive PResp : Type
  | status (code : Nat) (retryAfterHint : Option Nat)
  | timeoutExc
  | reqExc
  deriving DecidableEq

/-- Events of a _post_json run. -/
inductive PEvent : Type
  | attempt (i : Nat)
  | sleepHint (n : Nat)
  | sleepBackoff (i : Nat)
  deriving DecidableEq

/-- Error a _post_json run can end in. -/
inductive PErr : Type
  | http (code : Nat)
  | timeout
  | reqExc
  deriving DecidableEq

/-- Outcome of a _post_json run: a returned response, a raised error, or
the RuntimeError raised when the loop exhausts without a recorded error. -/
inductive POutcome : Type
  | resp (code : Nat)
  | raised (e : PErr)
  | raisedUnknown
  deriving DecidableEq

/-- Embedding of the _post_json loop body. rem is the number of attempts
still allowed including the current one; i is the 1-based attempt number;
lastErr is the last caught exception. 401/403 and any status below 400
return the response; 429 sleeps (hint if present, else backoff) and
retries; 5xx sleeps backoff and retries; any other 4xx raises through
raise_for_status, is caught as a RequestException and retried with
backoff, as are timeouts and other request exceptions — except on the
final attempt, where the caught error is raised. A 429 or 5xx on the
final attempt still sleeps, then the loop exits and raises the recorded
error, or RuntimeError when none was recorded. -/
def postJsonGo (script : Nat → PResp) :
    Nat → Nat → Option PErr → List PEvent × POutcome
  | 0, _, lastErr =>
    ([], match lastErr with | some e => .raised e | none => .raisedUnknown)
  | rem+1, i, lastErr =>
    match script i with
    | .status c ra =>
      if c = 401 || c = 403 then ([.attempt i], .resp c)
      else if c = 429 then
        let ev := match ra with
          | some n => PEvent.sleepHint n
          | none => PEvent.sleepBackoff i
        let t := postJsonGo script rem (i+1) lastErr
        (.attempt i :: ev :: t.1, t.2)
      else if 500 ≤ c && c < 600 then
        let t := postJsonGo script rem (i+1) lastErr
        (.attempt i :: .sleepBackoff i :: t.1, t.2)
      else if c < 400 then ([.attempt i], .resp c)
      else
        if rem = 0 then ([.attempt i], .raised (.http c))
        else
          let t := postJsonGo script rem (i+1) (some (.http c))
          (.attempt i :: .sleepBackoff i :: t.1, t.2)
    | .timeoutExc =>
      if rem = 0 then ([.attempt i], .raised .timeout)
      else
        let t := postJsonGo script rem (i+1) (some .timeout)
        (.attempt i :: .sleepBackoff i :: t.1, t.2)
    | .reqExc =>
      if rem = 0 then ([.attempt i], .raised .reqExc)
      else
        let t := postJsonGo script rem (i+1) (some .reqExc)
        (.attempt i :: .sleepBackoff i :: t.1, t.2)

/-- Full _post_json run with the default attempt cap. -/
def postJson (script : Nat → PResp) : List PEvent × POutcome :=
  postJsonGo script POST_JSON_MAX_ATTEMPTS 1 none

/-! ## Checkers over the rule tree -/

/-- Per-constraint check: a marketplaceId constraint carries only the
target id (as int, or as its decimal string). -/
def cMpOk (dst : Int) (c : Constraint) : Bool :=
  !(c.defId == "marketplaceId")
    || c.values.all (fun v => v == SVal.i dst || v == SVal.s (toString dst))

/-- Check over the walked depth of _update_basic_marketplace: top-level
rules and their direct sub-rules. -/
def walkedMpOk (dst : Int) (b : Basic) : Bool :=
  (b.includeRules ++ b.excludeRules).all fun r =>
    r.constraints.all (cMpOk dst) && r.subRules.all (fun sr => sr.constraints.all (cMpOk dst))

mutual

/-- Check at every nesting depth of one rule. -/
def ruleDeepMpOk (dst : Int) : Rule → Bool
  | .mk cs rs => cs.all (cMpOk dst) && rulesDeepMpOk dst rs

/-- Check at every nesting depth of a rule list. -/
def rulesDeepMpOk (dst : Int) : List Rule → Bool
  | [] => true
  | r :: rs => ruleDeepMpOk dst r && rulesDeepMpOk dst rs

end

/-- Check at every nesting depth of a basic object: no marketplaceId
constraint anywhere carries anything but the target id. -/
def deepMpOk (dst : Int) (b : Basic) : Bool :=
  rulesDeepMpOk dst b.includeRules && rulesDeepMpOk dst b.excludeRules

/-- Per-constraint check after hygiene replacement: a constraint that
still matches the hygiene trigger carries exactly the new id. -/
def cHygSettled (newHyg : Int) (c : Constraint) : Bool :=
  !(hygTriggers c) || decide (c.values = [SVal.i newHyg])

/-- Hygiene-settled check over one rule's own constraints. -/
def ruleOwnHygSettled (newHyg : Int) (r : Rule) : Bool :=
  r.constraints.all (cHygSettled newHyg)

/-- Hygiene-settled check over the walked depth. -/
def walkedHygSettled (newHyg : Int) (b : Basic) : Bool :=
  (b.includeRules ++ b.excludeRules).all fun r =>
    ruleOwnHygSettled newHyg r && r.subRules.all (ruleOwnHygSettled newHyg)

/-- Does any walked constraint trigger the hygiene replacement? -/
def anyWalkedHygTrigger (b : Basic) : Bool :=
  (b.includeRules ++ b.excludeRules).any fun r =>
    r.constraints.any hygTriggers || r.subRules.any (fun sr => sr.constraints.any hygTriggers)

/-- Deeply nested input for the C1 counterexample: a marketplaceId
constraint sits below the second level of sub-rules. -/
def deepQjC1 : QueryJson :=
  { name := some "DE_X"
    basic :=
      { marketplaceId := some 4
        includeRules :=
          [Rule.mk [] [Rule.mk [] [Rule.mk [⟨"marketplaceId", [.i 4]⟩] []]]]
        excludeRules := [] }
    queryString := "" }

/-- Deeply nested input for the C2 counterexample: the DE hygiene
constraint sits below the second level of sub-rules. -/
def deepQjC2 : QueryJson :=
  { name := some "DE_X"
    basic :=
      { marketplaceId := some 4
        includeRules :=
          [Rule.mk [] [Rule.mk [] [Rule.mk [⟨"segment_id", [.i 1266778402]⟩] []]]]
        excludeRules := [] }
    queryString := "segment(1266778402)" }

/-- Concrete oracle for the C6 witness: polls never report approval. -/
def c6oracle : ApproveOracle :=
  { pendingOk := true, pendingErr := "", pendingBody := ""
    approvedOk := true, approvedErr := "", approvedBody := ""
    polls := fun _ => { ok := false, apc := 0, upl := 0, text := "apc=0 upl=3" } }

/-- Concrete uploaded context for the C6 witness. -/
def c6ctx : Ctx :=
  { okUpload := true, campId := "123", mpId := some 3
    row := { uploading := true, approved := false, approvedRequest := false
             metricsApproved := false, status := "Uploaded" } }

/-- Concrete batch for the C8 witness: one uploaded context, sentinel
polls always silent. -/
def c8polls : Nat → UnapPoll := fun _ => { ok := true, submitted := 0 }

/-- Concrete script for the C9 witness: a 429 with hint 9 on attempt 1,
then success. -/
def c9script : Nat → PResp :=
  fun j => if j = 1 then .status 429 (some 9) else .status 200 none

/-- Result of scenario A, used by the C5 witness. -/
def scenarioARes : TransformResult :=
  { newName := "UK_Promo_X"
    basic :=
      { marketplaceId := some 3
        includeRules :=
          [Rule.mk [⟨"marketplaceId", [.i 3]⟩] [],
           Rule.mk [⟨"segment_id", [.i 1266805602]⟩] []]
        excludeRules := [] }
    queryString := "segment(1266805602) and marketplaceId == 3"
    notes := []
    countMp := 1
    countHyg := 1
    oldHygIds := [1266778402]
    replacedHyg := true }

/-! Theorems and examples. -/

example : transformNameForMarket "DE_Promo_X" "DE" "UK" = "UK_Promo_X" := by decide
example : transformNameForMarket "Trends" "DE" "UK" = "Trends UK" := by decide
example : transformNameForMarket "Trends - UK" "UK" "DE" = "Trends - DE" := by decide
example : transformNameForMarket "UK_SL_programs_X" "UK" "DE" = "DE_SL_programs_X" := by decide
example : transformNameForMarket "BUKET" "UK" "DE" = "BDEET" := by decide
example : transformNameForMarket "" "UK" "DE" = "DE" := by decide
example : transformNameForMarket "UK_UK_X" "UK" "DE" = "DE_UK_X" := by decide

example :
    replaceMarketplaceInQuerystring "marketplaceId == 4 and x" 4 3
      = ("marketplaceId == 3 and x", 1) := by decide
example :
    replaceMarketplaceInQuerystring "xmarketplaceId == 4" 4 3
      = ("xmarketplaceId == 4", 0) := by decide
example :
    replaceHygieneInQuerystring "segment( 1266778402 ) or segment(999)"
      [1266778402] (some 1266805602)
      = ("segment( 1266805602 ) or segment(999)", 1) := by decide

example :
    transformCore scenarioAQj 3 "123"
      = some
        { newName := "UK_Promo_X"
          basic :=
            { marketplaceId := some 3
              includeRules :=
                [Rule.mk [⟨"marketplaceId", [.i 3]⟩] [],
                 Rule.mk [⟨"segment_id", [.i 1266805602]⟩] []]
              excludeRules := [] }
          queryString := "segment(1266805602) and marketplaceId == 3"
          notes := []
          countMp := 1
          countHyg := 1
          oldHygIds := [1266778402]
          replacedHyg := true } := by decide

example :
    postJson (fun _ => .status 429 (some 7))
      = ([.attempt 1, .sleepHint 7, .attempt 2, .sleepHint 7,
          .attempt 3, .sleepHint 7, .attempt 4, .sleepHint 7],
         .raisedUnknown) := by decide

example :
    (postJson (fun i => if i = 1 then .status 429 (some 9) else .status 200 none))
      = ([.attempt 1, .sleepHint 9, .attempt 2], .resp 200) := by decide

/-! ## Lemmas: marketplace rewrite (claim C1) -/

theorem cMpOk_fixed (dst : Int) (c : Constraint) :
    cMpOk dst (if c.defId = "marketplaceId"
               then { c with values := c.values.map (fixMpVal dst) }
               else c) = true := by
  by_cases h : c.defId = "marketplaceId"
  · simp only [if_pos h, cMpOk, List.all_map]
    rw [Bool.or_eq_true]
    right
    rw [List.all_eq_true]
    intro v _
    cases v <;> simp [fixMpVal, Function.comp]
  · simp [cMpOk, h]

theorem fixConstraintsMp_constraints_ok (dst : Int) (r : Rule) :
    (fixConstraintsMp dst r).constraints.all (cMpOk dst) = true := by
  cases r with
  | mk cs rs =>
    simp only [fixConstraintsMp, Rule.constraints, List.all_map]
    rw [List.all_eq_true]
    intro c _
    exact cMpOk_fixed dst c

theorem fixTopRuleMp_ok (dst : Int) (r : Rule) :
    (fixTopRuleMp dst r).constraints.all (cMpOk dst) = true
      ∧ (fixTopRuleMp dst r).subRules.all
          (fun sr => sr.constraints.all (cMpOk dst)) = true := by
  cases r with
  | mk cs rs =>
    constructor
    · exact fixConstraintsMp_constraints_ok dst (.mk cs rs)
    · simp only [fixTopRuleMp, fixConstraintsMp, Rule.subRules, List.all_map]
      rw [List.all_eq_true]
      intro sr _
      exact fixConstraintsMp_constraints_ok dst sr

theorem walkedMpOk_update (b : Basic) (srcMp dstMp : Int) :
    walkedMpOk dstMp (updateBasicMarketplace b srcMp dstMp) = true := by
  simp only [walkedMpOk, updateBasicMarketplace, ← List.map_append, List.all_map]
  rw [List.all_eq_true]
  intro r _
  have h := fixTopRuleMp_ok dstMp r
  simp [Function.comp, h.1, h.2]

theorem hygTriggers_defId (c : Constraint) (h : hygTriggers c = true) :
    c.defId ≠ "marketplaceId" := by
  intro he
  have h1 : strToLower "marketplaceId" = "marketplaceid" := by decide
  simp [hygTriggers, he, h1] at h

theorem cMpOk_hygFix (newHyg dst : Int) (c : Constraint) (h : cMpOk dst c = true) :
    cMpOk dst (hygFixConstraint newHyg c).1 = true := by
  unfold hygFixConstraint
  by_cases ht : hygTriggers c = true
  · have hd := hygTriggers_defId c ht
    simp [ht, cMpOk, hd]
  · simp only [Bool.not_eq_true] at ht
    simp [ht, h]

theorem hygFixRuleOwn_fst_constraints (newHyg : Int) (r : Rule) :
    (hygFixRuleOwn newHyg r).1.constraints
      = r.constraints.map (fun c => (hygFixConstraint newHyg c).1) := by
  cases r with
  | mk cs rs => simp [hygFixRuleOwn, Rule.constraints, List.map_map]

theorem hygFixRuleOwn_fst_subRules (newHyg : Int) (r : Rule) :
    (hygFixRuleOwn newHyg r).1.subRules = r.subRules := by
  cases r with
  | mk cs rs => rfl

theorem hygFixTopRule_fst_constraints (newHyg : Int) (r : Rule) :
    (hygFixTopRule newHyg r).1.constraints
      = r.constraints.map (fun c => (hygFixConstraint newHyg c).1) := by
  cases r with
  | mk cs rs =>
    simp [hygFixTopRule, hygFixRuleOwn, Rule.constraints, List.map_map]

theorem hygFixTopRule_fst_subRules (newHyg : Int) (r : Rule) :
    (hygFixTopRule newHyg r).1.subRules
      = r.subRules.map (fun sr => (hygFixRuleOwn newHyg sr).1) := by
  cases r with
  | mk cs rs =>
    simp [hygFixTopRule, Rule.subRules, List.map_map]

theorem constraints_all_mpOk_hygFix (newHyg dst : Int) (cs : List Constraint)
    (h : cs.all (cMpOk dst) = true) :
    (cs.map (fun c => (hygFixConstraint newHyg c).1)).all (cMpOk dst) = true := by
  rw [List.all_map, List.all_eq_true]
  rw [List.all_eq_true] at h
  intro c hc
  exact cMpOk_hygFix newHyg dst c (h c hc)

theorem walkedMpOk_hyg (newHyg dst : Int) (b : Basic)
    (h : walkedMpOk dst b = true) :
    walkedMpOk dst (replaceHygieneInBasic b newHyg).1 = true := by
  simp only [walkedMpOk, replaceHygieneInBasic, hygFixRules, List.map_map] at h ⊢
  simp only [← List.map_append, List.all_map]
  rw [List.all_eq_true]
  rw [List.all_eq_true] at h
  intro r hr
  have hr2 := h r hr
  rw [Bool.and_eq_true] at hr2
  obtain ⟨hA, hB⟩ := hr2
  rw [List.all_eq_true] at hB
  simp only [Function.comp]
  rw [Bool.and_eq_true]
  constructor
  · rw [hygFixTopRule_fst_constraints]
    exact constraints_all_mpOk_hygFix newHyg dst r.constraints hA
  · rw [hygFixTopRule_fst_subRules]
    rw [List.all_map, List.all_eq_true]
    intro sr hsr
    simp only [Function.comp]
    rw [hygFixRuleOwn_fst_constraints]
    exact constraints_all_mpOk_hygFix newHyg dst sr.constraints (hB sr hsr)

theorem replaceHygieneInBasic_marketplaceId (b : Basic) (newHyg : Int) :
    (replaceHygieneInBasic b newHyg).1.marketplaceId = b.marketplaceId := rfl

/-- Claim C1 (amended): after transformCore, the top-level marketplaceId
field is the target id and every marketplaceId constraint in the walked
depth (top-level rules and their direct sub-rules) carries only the target
id. -/
theorem transform_marketplace_walked_complete
    (qj : QueryJson) (t : Int) (bid : String) (res : TransformResult)
    (h : transformCore qj t bid = some res) :
    res.basic.marketplaceId = some t ∧ walkedMpOk t res.basic = true := by
  unfold transformCore at h
  cases hsrc : qj.basic.marketplaceId with
  | none => rw [hsrc] at h; cases h
  | some srcMp =>
    rw [hsrc] at h
    cases hhy : HYGIENE_BY_MP t with
    | some hy =>
      rw [hhy] at h
      simp only [] at h
      cases h
      refine ⟨rfl, ?_⟩
      exact walkedMpOk_hyg hy t _ (walkedMpOk_update qj.basic srcMp t)
    | none =>
      rw [hhy] at h
      simp only [] at h
      by_cases hg : (replaceHygieneInBasic (updateBasicMarketplace qj.basic srcMp t) 0).2.1 = true
      · rw [if_pos hg] at h; cases h
      · rw [if_neg hg] at h
        cases h
        exact ⟨rfl, walkedMpOk_update qj.basic srcMp t⟩

/-- Witness for transform_marketplace_walked_complete at scenario A. -/
theorem transform_marketplace_walked_complete_witness :
    (transformCore scenarioAQj 3 "123").isSome = true
      ∧ ∀ res, transformCore scenarioAQj 3 "123" = some res →
          res.basic.marketplaceId = some 3 ∧ walkedMpOk 3 res.basic = true :=
  ⟨by decide, fun res h => transform_marketplace_walked_complete scenarioAQj 3 "123" res h⟩

/-- Claim C1 as stated is false: transforming deepQjC1 from DE (4) to UK
(3) leaves the depth-3 marketplaceId constraint at the source id 4. -/
theorem transform_marketplace_deep_counterexample :
    (transformCore deepQjC1 3 "1").map (fun r => deepMpOk 3 r.basic) = some false
      ∧ (transformCore deepQjC1 3 "1").map (fun r => r.basic.includeRules)
          = some [Rule.mk [] [Rule.mk [] [Rule.mk [⟨"marketplaceId", [SVal.i 4]⟩] []]]] := by
  constructor <;> decide

/-! ## Lemmas: hygiene replacement (claim C2) -/

theorem list_any_congr {α : Type} (l : List α) (f g : α → Bool)
    (h : ∀ x ∈ l, f x = g x) : l.any f = l.any g := by
  induction l with
  | nil => rfl
  | cons a t ih =>
    simp only [List.any_cons]
    rw [h a (by simp), ih (fun x hx => h x (by simp [hx]))]

theorem list_any_map2 {α β : Type} (l : List α) (f : α → β) (p : β → Bool) :
    (l.map f).any p = l.any (fun x => p (f x)) := by
  induction l with
  | nil => rfl
  | cons a t ih => simp [List.any_cons, ih]

theorem list_all_map2 {α β : Type} (l : List α) (f : α → β) (p : β → Bool) :
    (l.map f).all p = l.all (fun x => p (f x)) := by
  induction l with
  | nil => rfl
  | cons a t ih => simp [List.all_cons, ih]

theorem list_map_self {α : Type} (l : List α) : l.map (fun a => a) = l := by
  induction l with
  | nil => rfl
  | cons a t ih => simp [ih]

theorem list_any_false {α : Type} (l : List α) : l.any (fun _ => false) = false := by
  induction l with
  | nil => rfl
  | cons a t ih => simp [ih]

theorem list_flatten_map_nil {α β : Type} (l : List α) :
    (l.map (fun _ => ([] : List β))).flatten = [] := by
  induction l with
  | nil => rfl
  | cons a t ih => simp [ih]

theorem hygFixConstraint_flag (newHyg : Int) (c : Constraint) :
    (hygFixConstraint newHyg c).2.1 = hygTriggers c := by
  unfold hygFixConstraint
  by_cases h : hygTriggers c = true <;> simp [h]

theorem cHygSettled_hygFix (newHyg : Int) (c : Constraint) :
    cHygSettled newHyg (hygFixConstraint newHyg c).1 = true := by
  unfold hygFixConstraint
  by_cases h : hygTriggers c = true
  · simp [h, cHygSettled]
  · simp only [Bool.not_eq_true] at h
    simp [h, cHygSettled]

theorem hygFixRuleOwn_settled (newHyg : Int) (r : Rule) :
    ruleOwnHygSettled newHyg (hygFixRuleOwn newHyg r).1 = true := by
  unfold ruleOwnHygSettled
  rw [hygFixRuleOwn_fst_constraints, List.all_map, List.all_eq_true]
  intro c _
  exact cHygSettled_hygFix newHyg c

theorem hygFixRuleOwn_flag (newHyg : Int) (r : Rule) :
    (hygFixRuleOwn newHyg r).2.1 = r.constraints.any hygTriggers := by
  cases r with
  | mk cs rs =>
    show (List.map (hygFixConstraint newHyg) cs).any (fun x => x.2.1)
      = cs.any hygTriggers
    rw [list_any_map2]
    apply list_any_congr
    intro c _
    exact hygFixConstraint_flag newHyg c

theorem hygFixTopRule_flag (newHyg : Int) (r : Rule) :
    (hygFixTopRule newHyg r).2.1
      = (r.constraints.any hygTriggers
          || r.subRules.any (fun sr => sr.constraints.any hygTriggers)) := by
  cases r with
  | mk cs rs =>
    show ((hygFixRuleOwn newHyg (Rule.mk cs rs)).2.1
        || (List.map (hygFixRuleOwn newHyg) rs).any (fun x => x.2.1))
      = ((Rule.mk cs rs).constraints.any hygTriggers
          || rs.any (fun sr => sr.constraints.any hygTriggers))
    rw [hygFixRuleOwn_flag, list_any_map2]
    congr 1
    apply list_any_congr
    intro sr _
    exact hygFixRuleOwn_flag newHyg sr

theorem replaceHygieneInBasic_flag (b : Basic) (newHyg : Int) :
    (replaceHygieneInBasic b newHyg).2.1 = anyWalkedHygTrigger b := by
  show ((List.map (hygFixTopRule newHyg) b.includeRules).any (fun x => x.2.1)
      || (List.map (hygFixTopRule newHyg) b.excludeRules).any (fun x => x.2.1))
    = anyWalkedHygTrigger b
  rw [list_any_map2, list_any_map2]
  unfold anyWalkedHygTrigger
  rw [List.any_append]
  congr 1 <;>
  · apply list_any_congr
    intro r _
    exact hygFixTopRule_flag newHyg r

theorem hygFixRules_settled (newHyg : Int) (rules : List Rule) :
    ((rules.map (hygFixTopRule newHyg)).map (fun x => x.1)).all
      (fun r => ruleOwnHygSettled newHyg r
        && r.subRules.all (ruleOwnHygSettled newHyg)) = true := by
  rw [list_all_map2, list_all_map2, List.all_eq_true]
  intro r _
  rw [Bool.and_eq_true]
  constructor
  · unfold ruleOwnHygSettled
    rw [hygFixTopRule_fst_constraints, list_all_map2, List.all_eq_true]
    intro c _
    exact cHygSettled_hygFix newHyg c
  · rw [hygFixTopRule_fst_subRules, list_all_map2, List.all_eq_true]
    intro sr _
    exact hygFixRuleOwn_settled newHyg sr

theorem walkedHygSettled_replace (b : Basic) (newHyg : Int) :
    walkedHygSettled newHyg (replaceHygieneInBasic b newHyg).1 = true := by
  show (((b.includeRules.map (hygFixTopRule newHyg)).map (fun x => x.1))
      ++ ((b.excludeRules.map (hygFixTopRule newHyg)).map (fun x => x.1))).all
        (fun r => ruleOwnHygSettled newHyg r
          && r.subRules.all (ruleOwnHygSettled newHyg)) = true
  rw [List.all_append, Bool.and_eq_true]
  exact ⟨hygFixRules_settled newHyg b.includeRules,
    hygFixRules_settled newHyg b.excludeRules⟩

theorem hygFixConstraint_noop (newHyg : Int) (c : Constraint)
    (h : hygTriggers c = false) :
    hygFixConstraint newHyg c = (c, false, []) := by
  simp [hygFixConstraint, h]

theorem hygFixRuleOwn_noop (newHyg : Int) (r : Rule)
    (h : r.constraints.any hygTriggers = false) :
    hygFixRuleOwn newHyg r = (r, false, []) := by
  cases r with
  | mk cs rs =>
    rw [List.any_eq_false] at h
    simp only [Rule.constraints] at h
    have hc : cs.map (hygFixConstraint newHyg)
        = cs.map (fun c => (c, false, ([] : List Int))) := by
      apply List.map_congr_left
      intro c hcmem
      exact hygFixConstraint_noop newHyg c (by simpa using h c hcmem)
    simp only [hygFixRuleOwn, Rule.constraints, hc, List.map_map, Function.comp]
    simp only [Prod.mk.injEq, Rule.mk.injEq]
    refine ⟨⟨?_, trivial⟩, ?_, ?_⟩
    · exact list_map_self cs
    · rw [list_any_map2]
      exact list_any_false cs
    · exact list_flatten_map_nil cs

theorem hygFixTopRule_noop (newHyg : Int) (r : Rule)
    (h1 : r.constraints.any hygTriggers = false)
    (h2 : r.subRules.any (fun sr => sr.constraints.any hygTriggers) = false) :
    hygFixTopRule newHyg r = (r, false, []) := by
  cases r with
  | mk cs rs =>
    rw [List.any_eq_false] at h2
    simp only [Rule.subRules] at h2
    have hown := hygFixRuleOwn_noop newHyg (.mk cs rs) h1
    have hsubs : rs.map (hygFixRuleOwn newHyg)
        = rs.map (fun sr => (sr, false, ([] : List Int))) := by
      apply List.map_congr_left
      intro sr hsr
      exact hygFixRuleOwn_noop newHyg sr (by simpa using h2 sr hsr)
    simp only [hygFixTopRule, hown, hsubs, List.map_map, Function.comp, Rule.constraints]
    simp only [Prod.mk.injEq, Rule.mk.injEq]
    refine ⟨⟨trivial, ?_⟩, ?_, ?_⟩
    · exact list_map_self rs
    · rw [Bool.false_or, list_any_map2]
      exact list_any_false rs
    · rw [List.nil_append]
      exact list_flatten_map_nil rs

theorem hygFixRules_noop (newHyg : Int) (rules : List Rule)
    (h : rules.any (fun r =>
          r.constraints.any hygTriggers
            || r.subRules.any (fun sr => sr.constraints.any hygTriggers)) = false) :
    hygFixRules newHyg rules = (rules, false, []) := by
  rw [List.any_eq_false] at h
  have hr : rules.map (hygFixTopRule newHyg)
      = rules.map (fun r => (r, false, ([] : List Int))) := by
    apply List.map_congr_left
    intro r hrm
    have := h r hrm
    simp only [Bool.or_eq_true, not_or, Bool.not_eq_true] at this
    exact hygFixTopRule_noop newHyg r this.1 this.2
  simp only [hygFixRules, hr, List.map_map, Function.comp]
  simp only [Prod.mk.injEq]
  refine ⟨?_, ?_, ?_⟩
  · exact list_map_self rules
  · rw [list_any_map2]
    exact list_any_false rules
  · exact list_flatten_map_nil rules

theorem replaceHygieneInBasic_noop (b : Basic) (newHyg : Int)
    (h : anyWalkedHygTrigger b = false) :
    replaceHygieneInBasic b newHyg = (b, false, []) := by
  simp only [anyWalkedHygTrigger, List.any_append, Bool.or_eq_false_iff] at h
  rw [replaceHygieneInBasic, hygFixRules_noop newHyg b.includeRules h.1,
    hygFixRules_noop newHyg b.excludeRules h.2]
  simp

theorem replaceHygieneInQuerystring_nil (qs : String) (tgt : Option Int) :
    replaceHygieneInQuerystring qs [] tgt = (qs, 0) := by
  cases tgt <;> simp [replaceHygieneInQuerystring]

/-- Claim C2 (amended): the hygiene substitution acts on the walked depth
(top-level rules and direct sub-rules): every triggered segment-id
constraint ends with exactly the target hygiene id, the replaced flag is
exactly the existence of a triggering walked constraint, a missing trigger
is a complete no-op (not an error), an empty recorded-id list leaves the
query text untouched with count 0, only recorded ids inside segment(...)
calls are rewritten (with the count returned), and the DE→UK scenario A
produces hygiene values [1266805602] with zero advisory notes. -/
theorem hygiene_replacement_walked (b : Basic) (newHyg : Int) (qs : String)
    (tgt : Option Int) :
    walkedHygSettled newHyg (replaceHygieneInBasic b newHyg).1 = true
  ∧ (replaceHygieneInBasic b newHyg).2.1 = anyWalkedHygTrigger b
  ∧ (anyWalkedHygTrigger b = false → replaceHygieneInBasic b newHyg = (b, false, []))
  ∧ replaceHygieneInQuerystring qs [] tgt = (qs, 0)
  ∧ replaceHygieneInQuerystring "segment(1266778402) segment(999) segment(1266778402)"
      [1266778402] (some 1266805602)
      = ("segment(1266805602) segment(999) segment(1266805602)", 2)
  ∧ transformCore scenarioAQj 3 "123"
      = some
        { newName := "UK_Promo_X"
          basic :=
            { marketplaceId := some 3
              includeRules :=
                [Rule.mk [⟨"marketplaceId", [.i 3]⟩] [],
                 Rule.mk [⟨"segment_id", [.i 1266805602]⟩] []]
              excludeRules := [] }
          queryString := "segment(1266805602) and marketplaceId == 3"
          notes := []
          countMp := 1
          countHyg := 1
          oldHygIds := [1266778402]
          replacedHyg := true } :=
  ⟨walkedHygSettled_replace b newHyg,
   replaceHygieneInBasic_flag b newHyg,
   replaceHygieneInBasic_noop b newHyg,
   replaceHygieneInQuerystring_nil qs tgt,
   by decide,
   by decide⟩

/-- Witness for hygiene_replacement_walked: the no-trigger implication
discharged at a concrete trigger-free basic object. -/
theorem hygiene_replacement_walked_witness :
    anyWalkedHygTrigger
        { marketplaceId := none, includeRules := [], excludeRules := [] } = false
  ∧ replaceHygieneInBasic
        { marketplaceId := none, includeRules := [], excludeRules := [] } 5
      = ({ marketplaceId := none, includeRules := [], excludeRules := [] }, false, []) :=
  ⟨by decide,
   (hygiene_replacement_walked
      { marketplaceId := none, includeRules := [], excludeRules := [] } 5 "" none).2.2.1
     (by decide)⟩

/-- Claim C2 as stated is false: deepQjC2 contains a segment-id constraint
whose values include the known DE hygiene id, yet transforming it to UK
replaces nothing — the constraint keeps 1266778402, no old id is recorded,
and the query text keeps segment(1266778402) with count 0. -/
theorem hygiene_deep_counterexample :
    (transformCore deepQjC2 3 "1").map
        (fun r => (r.basic.includeRules, r.replacedHyg, r.oldHygIds, r.countHyg,
                   r.queryString))
      = some ([Rule.mk [] [Rule.mk [] [Rule.mk [⟨"segment_id", [SVal.i 1266778402]⟩] []]]],
              false, [], 0, "segment(1266778402)") := by decide

/-! ## Lemmas: substring containment -/

theorem isPrefixOf_append_left (a l r : List Char) (h : a.isPrefixOf l = true) :
    a.isPrefixOf (l ++ r) = true := by
  rw [List.isPrefixOf_iff_prefix] at h ⊢
  exact h.trans (List.prefix_append l r)

theorem isPrefixOf_self_append (a r : List Char) : a.isPrefixOf (a ++ r) = true := by
  rw [List.isPrefixOf_iff_prefix]
  exact List.prefix_append a r

theorem containsSub_nil_left (l : List Char) : containsSub [] l = true := by
  cases l <;> simp [containsSub]

theorem containsSub_of_isPrefixOf (a l : List Char) (h : a.isPrefixOf l = true) :
    containsSub a l = true := by
  cases l with
  | nil =>
    cases a with
    | nil => rfl
    | cons c r => simp [List.isPrefixOf] at h
  | cons c r => simp [containsSub, h]

theorem containsSub_cons (a : List Char) (c : Char) (r : List Char)
    (h : containsSub a r = true) : containsSub a (c :: r) = true := by
  simp [containsSub, h]

theorem containsSub_append_right (a x y : List Char) (h : containsSub a y = true) :
    containsSub a (x ++ y) = true := by
  induction x with
  | nil => simpa using h
  | cons c r ih => exact containsSub_cons a c (r ++ y) ih

theorem containsSub_append_left (a x y : List Char) (h : containsSub a x = true) :
    containsSub a (x ++ y) = true := by
  induction x with
  | nil =>
    simp only [containsSub, List.isEmpty_iff] at h
    subst h
    simpa using containsSub_nil_left y
  | cons c r ih =>
    rw [containsSub, Bool.or_eq_true] at h
    rcases h with h | h
    · rw [List.cons_append, containsSub, Bool.or_eq_true]
      left
      rw [← List.cons_append]
      exact isPrefixOf_append_left a (c :: r) y h
    · exact containsSub_cons a c (r ++ y) (ih h)

theorem containsSub_self_append (a r : List Char) : containsSub a (a ++ r) = true := by
  cases a with
  | nil => simpa using containsSub_nil_left r
  | cons c t =>
    rw [List.cons_append, containsSub, Bool.or_eq_true]
    left
    rw [← List.cons_append]
    exact isPrefixOf_self_append (c :: t) r

theorem containsSub_self (a : List Char) : containsSub a a = true := by
  simpa using containsSub_self_append a []

theorem containsSub_ne_nil (a l : List Char) (h : containsSub a l = true)
    (ha : a ≠ []) : l ≠ [] := by
  intro hl
  subst hl
  simp only [containsSub, List.isEmpty_iff] at h
  exact ha h

theorem containsSubStr_append_middle (t pre post : String) :
    containsSubStr t (pre ++ t ++ post) = true := by
  unfold containsSubStr
  rw [String.data_append, String.data_append, List.append_assoc]
  exact containsSub_append_right t.data pre.data (t.data ++ post.data)
    (containsSub_append_left t.data t.data post.data (containsSub_self t.data))

/-! ## Lemmas: verify loop and phase-2 worker (claims C6, C7) -/

theorem verifyLoopGo_step (polls : Nat → MetricsPoll) (i rem : Nat)
    (last : Option String)
    (hc : ((polls i).ok && decide ((polls i).apc > 0)) = false) :
    verifyLoopGo polls i (rem + 1) last
      = ((verifyLoopGo polls (i + 1) rem (some (polls i).text)).1,
         (verifyLoopGo polls (i + 1) rem (some (polls i).text)).2.1,
         (verifyLoopGo polls (i + 1) rem (some (polls i).text)).2.2 + 1) := by
  have hunf : verifyLoopGo polls i (rem + 1) last
      = (if ((polls i).ok && decide ((polls i).apc > 0)) = true
         then (true, some (polls i).text, 1)
         else ((verifyLoopGo polls (i + 1) rem (some (polls i).text)).1,
               (verifyLoopGo polls (i + 1) rem (some (polls i).text)).2.1,
               (verifyLoopGo polls (i + 1) rem (some (polls i).text)).2.2 + 1)) := rfl
  rw [hunf, hc]
  simp

theorem verifyLoopGo_exhaust (polls : Nat → MetricsPoll) :
    ∀ (rem i : Nat) (last : Option String),
      (∀ j, j < rem + 1 → ¬((polls (i + j)).ok = true ∧ (polls (i + j)).apc > 0)) →
      verifyLoopGo polls i (rem + 1) last
        = (false, some (polls (i + rem)).text, rem + 1) := by
  intro rem
  induction rem with
  | zero =>
    intro i last h
    have h0 := h 0 (by omega)
    simp only [Nat.add_zero] at h0
    have hc : ((polls i).ok && decide ((polls i).apc > 0)) = false := by
      cases hok : (polls i).ok
      · simp
      · simp only [Bool.true_and, decide_eq_false_iff_not]
        intro hgt
        exact h0 ⟨hok, hgt⟩
    rw [verifyLoopGo_step polls i 0 last hc]
    simp [verifyLoopGo]
  | succ rem ih =>
    intro i last h
    have h0 := h 0 (by omega)
    simp only [Nat.add_zero] at h0
    have hc : ((polls i).ok && decide ((polls i).apc > 0)) = false := by
      cases hok : (polls i).ok
      · simp
      · simp only [Bool.true_and, decide_eq_false_iff_not]
        intro hgt
        exact h0 ⟨hok, hgt⟩
    have hrec := ih (i + 1) (some (polls i).text) (by
      intro j hj
      have := h (j + 1) (by omega)
      have harith : i + (j + 1) = i + 1 + j := by omega
      rwa [harith] at this)
    rw [verifyLoopGo_step polls i (rem + 1) last hc, hrec]
    have harith : i + 1 + rem = i + (rem + 1) := by omega
    rw [harith]

/-- Claim C6: with both PUTs succeeding and the metrics endpoint never
reporting a positive approved count within the 12-attempt budget, the
phase-2 worker ends the job with metricsApproved = false and a status row
(not an exception — the embedding is total) whose text is the
Metrics-not-ready diagnostic carrying the last fetched snapshot. -/
theorem verify_timeout_failed (o : ApproveOracle) (ctx : Ctx)
    (hp : o.pendingOk = true) (ha : o.approvedOk = true)
    (hu : ctx.okUpload = true)
    (hm : ∀ j, j < METRICS_POLL_MAX_ATTEMPTS_APPROVED →
          ¬((o.polls j).ok = true ∧ (o.polls j).apc > 0)) :
    (phase2Worker ctx o).1.row.metricsApproved = false
  ∧ (phase2Worker ctx o).1.row.status
      = "Metrics not ready (last=" ++ pyReprStr (o.polls 11).text ++ ")"
  ∧ containsSubStr (o.polls 11).text (phase2Worker ctx o).1.row.status = true := by
  have hv : verifyLoop o.polls = (false, some (o.polls 11).text, 12) := by
    have := verifyLoopGo_exhaust o.polls 11 0 none (by
      intro j hj
      simp only [Nat.zero_add]
      exact hm j hj)
    simpa [verifyLoop, METRICS_POLL_MAX_ATTEMPTS_APPROVED] using this
  have hr : approveAfterUpload o
      = { pendingOk := true, approvedPutOk := true, metricsOk := false
          statusText := "Metrics not ready (last=" ++ pyReprStr (o.polls 11).text ++ ")"
          calls := [.requestApproval, .approve]
            ++ (List.range 12).map .metricsSummary } := by
    simp only [approveAfterUpload, hp, ha, Bool.not_true, Bool.false_eq_true,
      if_false, hv, pyReprOptStr]
  have hw : phase2Worker ctx o
      = ({ ctx with
            row := { ctx.row with
                      approvedRequest := true
                      approved := true
                      metricsApproved := false
                      status := "Metrics not ready (last="
                        ++ pyReprStr (o.polls 11).text ++ ")" } },
         [.requestApproval, .approve] ++ (List.range 12).map .metricsSummary) := by
    simp only [phase2Worker, hu, Bool.not_true, Bool.false_eq_true, if_false, hr]
  refine ⟨by rw [hw], by rw [hw], ?_⟩
  rw [hw]
  show containsSubStr (o.polls 11).text
    ("Metrics not ready (last=" ++ pyReprStr (o.polls 11).text ++ ")") = true
  unfold pyReprStr containsSubStr
  simp only [String.data_append]
  exact containsSub_append_left _ _ _
    (containsSub_append_right _ _ _
      (containsSub_append_left _ _ _
        (containsSub_append_right _ _ _ (containsSub_self _))))

/-- Witness for verify_timeout_failed. -/
theorem verify_timeout_failed_witness :
    (∀ j, j < METRICS_POLL_MAX_ATTEMPTS_APPROVED →
        ¬((c6oracle.polls j).ok = true ∧ (c6oracle.polls j).apc > 0))
  ∧ (phase2Worker c6ctx c6oracle).1.row.metricsApproved = false
  ∧ (phase2Worker c6ctx c6oracle).1.row.status
      = "Metrics not ready (last=" ++ pyReprStr (c6oracle.polls 11).text ++ ")"
  ∧ containsSubStr (c6oracle.polls 11).text (phase2Worker c6ctx c6oracle).1.row.status
      = true := by
  have hm : ∀ j, j < METRICS_POLL_MAX_ATTEMPTS_APPROVED →
      ¬((c6oracle.polls j).ok = true ∧ (c6oracle.polls j).apc > 0) := by
    intro j hj
    intro hcon
    simp [c6oracle] at hcon
  have := verify_timeout_failed c6oracle c6ctx rfl rfl rfl hm
  exact ⟨hm, this.1, this.2.1, this.2.2⟩

theorem string_head_append_ne (p e q : String) (c d : Char) (t u : List Char)
    (hp : p.data = c :: t) (hq : q.data = d :: u) (hne : c ≠ d) :
    p ++ e ≠ q := by
  intro h
  have h2 := congrArg (fun s => s.data.head?) h
  simp only [String.data_append, hp, hq, List.cons_append, List.head?_cons] at h2
  exact hne (Option.some.injEq c d ▸ h2)

theorem failed_prefix_ne_uploaded (e : String) (p : String)
    (hp : p.data.head? = some 'F') : p ++ e ≠ "Uploaded" := by
  cases hd : p.data with
  | nil => rw [hd] at hp; simp at hp
  | cons c t =>
    rw [hd] at hp
    simp only [List.head?_cons, Option.some.injEq] at hp
    exact string_head_append_ne p e "Uploaded" c 'U' t "ploaded".data hd rfl
      (by rw [hp]; decide)

/-- Claim C7: a job without a successful phase-1 upload is returned by the
phase-2 worker unchanged and with an empty remote-call trace; and phase 1
marks okUpload exactly on the rows it sets to Uploaded, so a FAILED
phase-1 row never reaches the approval sequence. -/
theorem failed_phase1_never_calls_phase2 :
    (∀ (ctx : Ctx) (o : ApproveOracle), ctx.okUpload = false →
        phase2Worker ctx o = (ctx, []))
  ∧ (∀ (p1o : P1Oracle) (ctx0 : Ctx), ctx0.okUpload = false →
        ((phase1Worker p1o ctx0).okUpload = true
          ↔ (phase1Worker p1o ctx0).row.status = "Uploaded")) := by
  constructor
  · intro ctx o h
    simp [phase2Worker, h]
  · intro p1o ctx0 h0
    unfold phase1Worker
    by_cases hv : p1o.validInputs
    on_goal 2 =>
      simp only [hv, Bool.not_false]
      simp [h0, (by decide : ("Failed: invalid inputs" : String) ≠ "Uploaded")]
    simp only [hv, Bool.not_true, Bool.false_eq_true, if_false]
    cases he : p1o.preflightErr with
    | some e =>
      simp [h0, failed_prefix_ne_uploaded e "Failed: Bullseye preflight error: " rfl]
    | none =>
      cases hver : p1o.preflightVer with
      | none =>
        simp [h0,
          (by decide : ("Failed: Bullseye preflight error: unknown" : String) ≠ "Uploaded")]
      | some v =>
        cases hmp : p1o.mpFromUrl <|> p1o.preflightMp with
        | none =>
          simp [h0,
            (by decide : ("Failed: Could not determine marketplaceId" : String) ≠ "Uploaded")]
        | some mp =>
          by_cases hup : p1o.uploadOk
          · simp [hup]
          · simp only [Bool.not_eq_true] at hup
            simp [hup, h0, failed_prefix_ne_uploaded p1o.uploadErr
              "Failed: Upload error: " rfl]

/-- Witness for failed_phase1_never_calls_phase2: a phase-1 FAILED context
generates no phase-2 call and its row is untouched. -/
theorem failed_phase1_never_calls_phase2_witness :
    ({ c6ctx with okUpload := false } : Ctx).okUpload = false
  ∧ phase2Worker { c6ctx with okUpload := false } c6oracle
      = ({ c6ctx with okUpload := false }, [])
  ∧ ((phase1Worker
        { validInputs := false, preflightErr := none, preflightVer := none
          preflightMp := none, mpFromUrl := none, uploadOk := false, uploadErr := "" }
        { c6ctx with okUpload := false }).okUpload = true
      ↔ (phase1Worker
          { validInputs := false, preflightErr := none, preflightVer := none
            preflightMp := none, mpFromUrl := none, uploadOk := false, uploadErr := "" }
          { c6ctx with okUpload := false }).row.status = "Uploaded") := by
  refine ⟨rfl, ?_, ?_⟩
  · exact failed_phase1_never_calls_phase2.1 { c6ctx with okUpload := false } c6oracle rfl
  · exact failed_phase1_never_calls_phase2.2 _ { c6ctx with okUpload := false } rfl

/-! ## Lemmas: sentinel barrier (claim C8) -/

theorem sentinelWaitGo_exhaust (polls : Nat → UnapPoll) :
    ∀ (rem i : Nat) (last : Option UnapPoll),
      (∀ j, j < rem + 1 → ¬((polls (i + j)).ok = true ∧ (polls (i + j)).submitted > 0)) →
      sentinelWaitGo polls i (rem + 1) last = (false, some (polls (i + rem))) := by
  intro rem
  induction rem with
  | zero =>
    intro i last h
    have h0 := h 0 (by omega)
    simp only [Nat.add_zero] at h0
    have hc : ((polls i).ok && decide ((polls i).submitted > 0)) = false := by
      cases hok : (polls i).ok
      · simp
      · simp only [Bool.true_and, decide_eq_false_iff_not]
        intro hgt
        exact h0 ⟨hok, hgt⟩
    simp only [sentinelWaitGo, hc, Bool.false_eq_true, if_false, Nat.add_zero]
  | succ rem ih =>
    intro i last h
    have h0 := h 0 (by omega)
    simp only [Nat.add_zero] at h0
    have hc : ((polls i).ok && decide ((polls i).submitted > 0)) = false := by
      cases hok : (polls i).ok
      · simp
      · simp only [Bool.true_and, decide_eq_false_iff_not]
        intro hgt
        exact h0 ⟨hok, hgt⟩
    have hrec := ih (i + 1) (some (polls i)) (by
      intro j hj
      have := h (j + 1) (by omega)
      have harith : i + (j + 1) = i + 1 + j := by omega
      rwa [harith] at this)
    have hunf : sentinelWaitGo polls i (rem + 1 + 1) last
        = (if ((polls i).ok && decide ((polls i).submitted > 0)) = true
           then (true, some (polls i))
           else sentinelWaitGo polls (i + 1) (rem + 1) (some (polls i))) := rfl
    rw [hunf, hc]
    simp only [Bool.false_eq_true, if_false, hrec]
    have harith : i + 1 + rem = i + (rem + 1) := by omega
    rw [harith]

/-- Claim C8: with at least one uploaded job and the sentinel polls never
reporting a positive submitted count within the 12-attempt budget, the
batch emits the warning and still runs phase 2 for every context exactly
as the phase-2 worker computes it (the sentinel outcome gates nothing). -/
theorem sentinel_timeout_proceeds (p1 : List Ctx) (polls : Nat → UnapPoll)
    (orcs : Nat → ApproveOracle)
    (hup : p1.any (·.okUpload) = true)
    (hm : ∀ j, j < METRICS_POLL_MAX_ATTEMPTS_UPLOAD →
          ¬((polls j).ok = true ∧ (polls j).submitted > 0)) :
    batchPhase1bAnd2 p1 polls orcs
      = (p1.mapIdx (fun i c => (phase2Worker c (orcs i)).1), false, true) := by
  have hsw : sentinelWait polls = (false, some (polls 11)) := by
    have := sentinelWaitGo_exhaust polls 11 0 none (by
      intro j hj
      simp only [Nat.zero_add]
      exact hm j hj)
    simpa [sentinelWait, METRICS_POLL_MAX_ATTEMPTS_UPLOAD] using this
  unfold batchPhase1bAnd2
  cases hfind : p1.find? (·.okUpload) with
  | none =>
    exfalso
    rw [List.any_eq_true] at hup
    obtain ⟨x, hx, hpx⟩ := hup
    have : (p1.find? (·.okUpload)).isSome = true :=
      List.find?_isSome.mpr ⟨x, hx, hpx⟩
    rw [hfind] at this
    simp at this
  | some c =>
    simp [hsw]

/-- Witness for sentinel_timeout_proceeds. -/
theorem sentinel_timeout_proceeds_witness :
    [c6ctx].any (·.okUpload) = true
  ∧ batchPhase1bAnd2 [c6ctx] c8polls (fun _ => c6oracle)
      = ([c6ctx].mapIdx (fun i c => (phase2Worker c ((fun _ => c6oracle) i)).1),
         false, true) := by
  refine ⟨by decide, ?_⟩
  apply sentinel_timeout_proceeds [c6ctx] c8polls (fun _ => c6oracle) (by decide)
  intro j hj hcon
  simp [c8polls] at hcon

/-! ## Lemmas: auth refresh (claim C3) -/

theorem callerEvents_eq (first : Nat) : callerEvents first = [.attempt] := by
  unfold callerEvents putEmptyWithRefresh
  cases hout : putOutcome first with
  | ok u => rfl
  | error s =>
    by_cases hc : (s = 401 || s = 403) = true
    · simp [hc]
    · simp only [Bool.not_eq_true] at hc
      simp [hc]

/-- Claim C3 (code bug): the claim matches the evident intent of
_put_empty_with_refresh — its comments promise a refresh under
_REFRESH_LOCK, a cookie merge and one retry — but the lock name is never
bound in the repository, so the 401/403 handler raises NameError on its
first statement: the shipped code performs no refresh, no cookie merge
and no retry, attempting the wrapped call exactly once; non-auth
failures propagate unchanged with no refresh; and no serialization of
callers can produce a single refresh invocation. -/
theorem auth_refresh_name_error (first : Nat) (jar : Cookies) :
    (first = 401 ∨ first = 403 →
        putEmptyWithRefresh first jar = (.nameErrorRefreshLock, jar, [.attempt])
      ∧ countRefresh (callerEvents first) = 0)
  ∧ (first < 400 → putEmptyWithRefresh first jar = (.ok, jar, [.attempt]))
  ∧ (400 ≤ first → first ≠ 401 → first ≠ 403 →
      putEmptyWithRefresh first jar = (.httpError first, jar, [.attempt]))
  ∧ (∀ firsts : List Nat, countRefresh (serializedEvents firsts) = 0) := by
  refine ⟨?_, ?_, ?_, ?_⟩
  · intro hauth
    have hout : putOutcome first = .error first := by
      unfold putOutcome
      rcases hauth with h | h <;> rw [h] <;> rfl
    have hcode : (first = 401 || first = 403) = true := by
      rcases hauth with h | h <;> simp [h]
    constructor
    · unfold putEmptyWithRefresh
      rw [hout]
      simp [hcode]
    · rw [callerEvents_eq]
      rfl
  · intro hlt
    have hout : putOutcome first = .ok () := by
      unfold putOutcome
      rw [if_neg (by omega)]
    unfold putEmptyWithRefresh
    rw [hout]
  · intro hge h1 h3
    have hout : putOutcome first = .error first := by
      unfold putOutcome
      rw [if_pos hge]
    unfold putEmptyWithRefresh
    rw [hout]
    simp [h1, h3]
  · intro firsts
    induction firsts with
    | nil => rfl
    | cons f rest ih =>
      unfold serializedEvents at ih ⊢
      simp only [List.map_cons, List.flatten_cons]
      unfold countRefresh at ih ⊢
      rw [List.filter_append, List.length_append, ih, callerEvents_eq]
      rfl

/-- Witness for auth_refresh_name_error at the failing input: a 401 on
the wrapped call. -/
theorem auth_refresh_name_error_witness :
    ((401 : Nat) = 401 ∨ (401 : Nat) = 403)
  ∧ putEmptyWithRefresh 401 [("sid", "old")]
      = (.nameErrorRefreshLock, [("sid", "old")], [.attempt])
  ∧ countRefresh (callerEvents 401) = 0 := by
  have h := (auth_refresh_name_error 401 [("sid", "old")]).1 (Or.inl rfl)
  exact ⟨Or.inl rfl, h.1, h.2⟩

/-! ## Lemmas: 429 handling in _post_json (claim C9) -/

theorem postJsonGo_starts_attempt (script : Nat → PResp) (rem j : Nat)
    (le : Option PErr) :
    (postJsonGo script (rem + 1) j le).1.head? = some (.attempt j) := by
  cases scr : script j with
  | status c ra =>
    simp only [postJsonGo, scr]
    split_ifs <;> simp
  | timeoutExc =>
    simp only [postJsonGo, scr]
    split_ifs <;> simp
  | reqExc =>
    simp only [postJsonGo, scr]
    split_ifs <;> simp

/-- Claim C9 (amended): a 429 with a numeric Retry-After hint of n causes
exactly one sleep of exactly n (not a backoff sleep); when the attempt
budget is not exhausted the very next event is exactly one further call
attempt; a 429 arriving on the final allowed attempt still sleeps n but
the loop then exits and raises without any further attempt. -/
theorem retry_after_hint_behavior (script : Nat → PResp) (i r : Nat)
    (lastErr : Option PErr) (n : Nat)
    (h : script i = .status 429 (some n)) :
    ((postJsonGo script (r + 2) i lastErr).1
        = .attempt i :: .sleepHint n :: (postJsonGo script (r + 1) (i + 1) lastErr).1)
  ∧ ((postJsonGo script (r + 2) i lastErr).2
        = (postJsonGo script (r + 1) (i + 1) lastErr).2)
  ∧ ((postJsonGo script (r + 1) (i + 1) lastErr).1.head? = some (.attempt (i + 1)))
  ∧ ((postJsonGo script 1 i lastErr).1 = [.attempt i, .sleepHint n])
  ∧ ((postJsonGo script 1 i lastErr).2
      = (match lastErr with | some e => POutcome.raised e | none => .raisedUnknown)) := by
  refine ⟨?_, ?_, postJsonGo_starts_attempt script r (i + 1) lastErr, ?_, ?_⟩
  · simp [postJsonGo, h]
  · simp [postJsonGo, h]
  · simp [postJsonGo, h]
  · simp [postJsonGo, h]

/-- Witness for retry_after_hint_behavior at c9script (the full run is
postJsonGo c9script 4 1 none). -/
theorem retry_after_hint_behavior_witness :
    c9script 1 = .status 429 (some 9)
  ∧ (postJsonGo c9script 4 1 none).1
      = .attempt 1 :: .sleepHint 9 :: (postJsonGo c9script 3 2 none).1
  ∧ (postJsonGo c9script 3 2 none).1.head? = some (.attempt 2)
  ∧ (postJsonGo c9script 1 1 none).1 = [.attempt 1, .sleepHint 9]
  ∧ postJson c9script = ([.attempt 1, .sleepHint 9, .attempt 2], .resp 200) := by
  have h := retry_after_hint_behavior c9script 1 2 none 9 rfl
  exact ⟨rfl, h.1, h.2.2.1, h.2.2.2.1, by decide⟩

/-- Claim C9 as stated is false on the final attempt: with every attempt
answered 429 hint 7, the run makes its four attempts, sleeps the hinted 7
seconds after each — including the last — and then raises without issuing
any further call attempt (the trace ends in the sleep). -/
theorem retry_after_final_attempt_counterexample :
    postJson (fun _ => .status 429 (some 7))
      = ([.attempt 1, .sleepHint 7, .attempt 2, .sleepHint 7,
          .attempt 3, .sleepHint 7, .attempt 4, .sleepHint 7], .raisedUnknown)
  ∧ (postJson (fun _ => .status 429 (some 7))).1.getLast? = some (.sleepHint 7)
  ∧ ((postJson (fun _ => .status 429 (some 7))).1.filter
        (fun e => match e with | .attempt _ => true | _ => false)).length = 4 := by
  refine ⟨by decide, by decide, by decide⟩

/-! ## Lemmas: the three name-substitution scanners (claims C4, C5, C10) -/

theorem prefix_drop_append (code r : List Char) (h : code.isPrefixOf r = true) :
    code ++ r.drop code.length = r := by
  rw [List.isPrefixOf_iff_prefix] at h
  obtain ⟨t, ht⟩ := h
  subst ht
  rw [List.drop_left]

theorem tokenRight_parts (l rc rest : List Char) (h : tokenRight l = some (rc, rest)) :
    rc ++ rest = l := by
  cases l with
  | nil =>
    simp only [tokenRight, Option.some.injEq, Prod.mk.injEq] at h
    rw [← h.1, ← h.2]
    rfl
  | cons c r =>
    simp only [tokenRight] at h
    by_cases hs : isSepChar c = true
    · rw [if_pos hs] at h
      simp only [Option.some.injEq, Prod.mk.injEq] at h
      rw [← h.1, ← h.2]
      rfl
    · rw [if_neg hs] at h
      cases h

theorem tokenMatchSep_contains (code dst l rep rest : List Char)
    (h : tokenMatchSep code dst l = some (rep, rest)) :
    containsSub code l = true := by
  cases l with
  | nil => simp [tokenMatchSep] at h
  | cons c r =>
    simp only [tokenMatchSep] at h
    by_cases hc : (isSepChar c && code.isPrefixOf r) = true
    · rw [if_pos hc] at h
      rw [Bool.and_eq_true] at hc
      exact containsSub_cons code c r (containsSub_of_isPrefixOf code r hc.2)
    · rw [if_neg hc] at h
      cases h

theorem tokenMatchSep_rep_contains (code dst l rep rest : List Char)
    (h : tokenMatchSep code dst l = some (rep, rest)) :
    containsSub dst rep = true := by
  cases l with
  | nil => simp [tokenMatchSep] at h
  | cons c r =>
    simp only [tokenMatchSep] at h
    by_cases hc : (isSepChar c && code.isPrefixOf r) = true
    · rw [if_pos hc] at h
      cases htr : tokenRight (r.drop code.length) with
      | some pr =>
        rw [htr] at h
        simp only [Option.some.injEq, Prod.mk.injEq] at h
        rw [← h.1]
        exact containsSub_cons dst c (dst ++ pr.1) (containsSub_self_append dst pr.1)
      | none =>
        rw [htr] at h
        cases h
    · rw [if_neg hc] at h
      cases h

theorem tokenMatchSep_self (code l rep rest : List Char)
    (h : tokenMatchSep code code l = some (rep, rest)) :
    rep ++ rest = l := by
  cases l with
  | nil => simp [tokenMatchSep] at h
  | cons c r =>
    simp only [tokenMatchSep] at h
    by_cases hc : (isSepChar c && code.isPrefixOf r) = true
    · rw [if_pos hc] at h
      rw [Bool.and_eq_true] at hc
      cases htr : tokenRight (r.drop code.length) with
      | some pr =>
        rw [htr] at h
        simp only [Option.some.injEq, Prod.mk.injEq] at h
        rw [← h.1, ← h.2]
        have hp := tokenRight_parts (r.drop code.length) pr.1 pr.2 (by rw [htr])
        rw [List.cons_append, List.append_assoc, hp]
        rw [prefix_drop_append code r hc.2]
      | none =>
        rw [htr] at h
        cases h
    · rw [if_neg hc] at h
      cases h

theorem tokenMatchAt_contains (code dst : List Char) (first : Bool)
    (l rep rest : List Char)
    (h : tokenMatchAt code dst first l = some (rep, rest)) :
    containsSub code l = true := by
  unfold tokenMatchAt at h
  by_cases he : code.isEmpty = true
  · rw [if_pos he] at h
    cases h
  · rw [if_neg he] at h
    by_cases hf : (first && code.isPrefixOf l) = true
    · rw [if_pos hf] at h
      rw [Bool.and_eq_true] at hf
      exact containsSub_of_isPrefixOf code l hf.2
    · rw [if_neg hf] at h
      exact tokenMatchSep_contains code dst l rep rest h

theorem tokenMatchAt_rep_contains (code dst : List Char) (first : Bool)
    (l rep rest : List Char)
    (h : tokenMatchAt code dst first l = some (rep, rest)) :
    containsSub dst rep = true := by
  unfold tokenMatchAt at h
  by_cases he : code.isEmpty = true
  · rw [if_pos he] at h
    cases h
  · rw [if_neg he] at h
    by_cases hf : (first && code.isPrefixOf l) = true
    · rw [if_pos hf] at h
      cases htr : tokenRight (l.drop code.length) with
      | some pr =>
        rw [htr] at h
        simp only [Option.some.injEq, Prod.mk.injEq] at h
        rw [← h.1]
        exact containsSub_self_append dst pr.1
      | none =>
        rw [htr] at h
        exact tokenMatchSep_rep_contains code dst l rep rest h
    · rw [if_neg hf] at h
      exact tokenMatchSep_rep_contains code dst l rep rest h

theorem tokenMatchAt_self (code : List Char) (first : Bool)
    (l rep rest : List Char)
    (h : tokenMatchAt code code first l = some (rep, rest)) :
    rep ++ rest = l := by
  unfold tokenMatchAt at h
  by_cases he : code.isEmpty = true
  · rw [if_pos he] at h
    cases h
  · rw [if_neg he] at h
    by_cases hf : (first && code.isPrefixOf l) = true
    · rw [if_pos hf] at h
      rw [Bool.and_eq_true] at hf
      cases htr : tokenRight (l.drop code.length) with
      | some pr =>
        rw [htr] at h
        simp only [Option.some.injEq, Prod.mk.injEq] at h
        rw [← h.1, ← h.2]
        have hp := tokenRight_parts (l.drop code.length) pr.1 pr.2 (by rw [htr])
        rw [List.append_assoc, hp]
        exact prefix_drop_append code l hf.2
      | none =>
        rw [htr] at h
        exact tokenMatchSep_self code l rep rest h
    · rw [if_neg hf] at h
      exact tokenMatchSep_self code l rep rest h

theorem tokenSubGo_succ (code dst : List Char) (f : Nat) (first : Bool)
    (l : List Char) :
    tokenSubGo code dst (f + 1) first l
      = (match tokenMatchAt code dst first l with
         | some (rep, rest) => rep ++ tokenSubGo code dst f false rest
         | none =>
           match l with
           | [] => []
           | c :: r => c :: tokenSubGo code dst f false r) := rfl

theorem tokenSubGo_self (code : List Char) :
    ∀ (fuel : Nat) (first : Bool) (l : List Char),
      tokenSubGo code code fuel first l = l := by
  intro fuel
  induction fuel with
  | zero => intro first l; rfl
  | succ f ih =>
    intro first l
    rw [tokenSubGo_succ]
    cases hm : tokenMatchAt code code first l with
    | some pr =>
      obtain ⟨rep, rest⟩ := pr
      simp only
      rw [ih false rest]
      exact tokenMatchAt_self code first l rep rest hm
    | none =>
      cases l with
      | nil => rfl
      | cons c r =>
        simp only
        rw [ih false r]

theorem tokenSubGo_unchanged (code dst : List Char) :
    ∀ (fuel : Nat) (first : Bool) (l : List Char),
      containsSub code l = false → tokenSubGo code dst fuel first l = l := by
  intro fuel
  induction fuel with
  | zero => intro first l _; rfl
  | succ f ih =>
    intro first l hnc
    rw [tokenSubGo_succ]
    cases hm : tokenMatchAt code dst first l with
    | some pr =>
      obtain ⟨rep, rest⟩ := pr
      have := tokenMatchAt_contains code dst first l rep rest hm
      rw [this] at hnc
      cases hnc
    | none =>
      cases l with
      | nil => rfl
      | cons c r =>
        simp only
        rw [containsSub, Bool.or_eq_false_iff] at hnc
        rw [ih false r hnc.2]

theorem tokenSubGo_changed (code dst : List Char) :
    ∀ (fuel : Nat) (first : Bool) (l : List Char),
      tokenSubGo code dst fuel first l = l
        ∨ containsSub dst (tokenSubGo code dst fuel first l) = true := by
  intro fuel
  induction fuel with
  | zero => intro first l; left; rfl
  | succ f ih =>
    intro first l
    rw [tokenSubGo_succ]
    cases hm : tokenMatchAt code dst first l with
    | some pr =>
      obtain ⟨rep, rest⟩ := pr
      right
      simp only
      exact containsSub_append_left dst rep _
        (tokenMatchAt_rep_contains code dst first l rep rest hm)
    | none =>
      cases l with
      | nil => left; rfl
      | cons c r =>
        simp only
        rcases ih false r with h | h
        · left
          rw [h]
        · right
          exact containsSub_cons dst c _ h

theorem wordSubGo_succ (code dst : List Char) (f : Nat) (prev : Option Char)
    (l : List Char) :
    wordSubGo code dst (f + 1) prev l
      = (if !code.isEmpty && code.isPrefixOf l && wordBoundaryLeft prev
            && wordBoundaryRight (l.drop code.length)
         then dst ++ wordSubGo code dst f (some (code.getLastD ' ')) (l.drop code.length)
         else
           match l with
           | [] => []
           | c :: r => c :: wordSubGo code dst f (some c) r) := rfl

theorem wordSubGo_self (code : List Char) :
    ∀ (fuel : Nat) (prev : Option Char) (l : List Char),
      wordSubGo code code fuel prev l = l := by
  intro fuel
  induction fuel with
  | zero => intro prev l; rfl
  | succ f ih =>
    intro prev l
    rw [wordSubGo_succ]
    by_cases hg : (!code.isEmpty && code.isPrefixOf l && wordBoundaryLeft prev
        && wordBoundaryRight (l.drop code.length)) = true
    · rw [if_pos hg]
      simp only [Bool.and_eq_true] at hg
      rw [ih]
      exact prefix_drop_append code l hg.1.1.2
    · rw [if_neg hg]
      cases l with
      | nil => rfl
      | cons c r =>
        simp only
        rw [ih]

theorem wordSubGo_unchanged (code dst : List Char) :
    ∀ (fuel : Nat) (prev : Option Char) (l : List Char),
      containsSub code l = false → wordSubGo code dst fuel prev l = l := by
  intro fuel
  induction fuel with
  | zero => intro prev l _; rfl
  | succ f ih =>
    intro prev l hnc
    rw [wordSubGo_succ]
    by_cases hg : (!code.isEmpty && code.isPrefixOf l && wordBoundaryLeft prev
        && wordBoundaryRight (l.drop code.length)) = true
    · exfalso
      simp only [Bool.and_eq_true] at hg
      rw [containsSub_of_isPrefixOf code l hg.1.1.2] at hnc
      cases hnc
    · rw [if_neg hg]
      cases l with
      | nil => rfl
      | cons c r =>
        simp only
        rw [containsSub, Bool.or_eq_false_iff] at hnc
        rw [ih (some c) r hnc.2]

theorem wordSubGo_changed (code dst : List Char) :
    ∀ (fuel : Nat) (prev : Option Char) (l : List Char),
      wordSubGo code dst fuel prev l = l
        ∨ containsSub dst (wordSubGo code dst fuel prev l) = true := by
  intro fuel
  induction fuel with
  | zero => intro prev l; left; rfl
  | succ f ih =>
    intro prev l
    rw [wordSubGo_succ]
    by_cases hg : (!code.isEmpty && code.isPrefixOf l && wordBoundaryLeft prev
        && wordBoundaryRight (l.drop code.length)) = true
    · rw [if_pos hg]
      right
      exact containsSub_self_append dst _
    · rw [if_neg hg]
      cases l with
      | nil => left; rfl
      | cons c r =>
        simp only
        rcases ih (some c) r with h | h
        · left
          rw [h]
        · right
          exact containsSub_cons dst c _ h

theorem rawReplaceGo_succ (code dst : List Char) (f : Nat) (l : List Char) :
    rawReplaceGo code dst (f + 1) l
      = (if !code.isEmpty && code.isPrefixOf l
         then dst ++ rawReplaceGo code dst f (l.drop code.length)
         else
           match l with
           | [] => []
           | c :: r => c :: rawReplaceGo code dst f r) := rfl

theorem rawReplaceGo_self (code : List Char) :
    ∀ (fuel : Nat) (l : List Char), rawReplaceGo code code fuel l = l := by
  intro fuel
  induction fuel with
  | zero => intro l; rfl
  | succ f ih =>
    intro l
    rw [rawReplaceGo_succ]
    by_cases hg : (!code.isEmpty && code.isPrefixOf l) = true
    · rw [if_pos hg]
      simp only [Bool.and_eq_true] at hg
      rw [ih]
      exact prefix_drop_append code l hg.2
    · rw [if_neg hg]
      cases l with
      | nil => rfl
      | cons c r =>
        simp only
        rw [ih]

theorem rawReplaceGo_nil_code (dst : List Char) :
    ∀ (fuel : Nat) (l : List Char), rawReplaceGo [] dst fuel l = l := by
  intro fuel
  induction fuel with
  | zero => intro l; rfl
  | succ f ih =>
    intro l
    rw [rawReplaceGo_succ]
    simp only [List.isEmpty_nil, Bool.not_true, Bool.false_and, Bool.false_eq_true,
      if_false]
    cases l with
    | nil => rfl
    | cons c r =>
      simp only
      rw [ih]

theorem rawReplaceGo_contains (code dst : List Char) (hne : code ≠ []) :
    ∀ (l : List Char) (fuel : Nat), l.length ≤ fuel →
      containsSub code l = true →
      containsSub dst (rawReplaceGo code dst fuel l) = true := by
  intro l
  induction l with
  | nil =>
    intro fuel _ hc
    simp only [containsSub, List.isEmpty_iff] at hc
    exact absurd hc hne
  | cons c r ih =>
    intro fuel hlen hc
    cases fuel with
    | zero => simp at hlen
    | succ f =>
      rw [rawReplaceGo_succ]
      by_cases hg : (!code.isEmpty && code.isPrefixOf (c :: r)) = true
      · rw [if_pos hg]
        exact containsSub_self_append dst _
      · rw [if_neg hg]
        simp only
        have hpre : code.isPrefixOf (c :: r) = false := by
          by_contra hp
          simp only [Bool.not_eq_false] at hp
          apply hg
          rw [Bool.and_eq_true]
          refine ⟨?_, hp⟩
          cases hcode : code
          · exact absurd hcode hne
          · rfl
        rw [containsSub, hpre, Bool.false_or] at hc
        have hlen2 : r.length ≤ f := by
          simp only [List.length_cons] at hlen
          omega
        exact containsSub_cons dst c _ (ih f hlen2 hc)

/-! ## Lemmas: the rename at the String level -/

theorem string_data_nil_iff (s : String) : s.data = [] ↔ s = "" := by
  constructor
  · intro h
    cases s with
    | mk d =>
      simp only at h
      rw [h]
  · intro h
    subst h
    rfl

theorem data_ne_of_ne_empty (s : String) (h : s ≠ "") : s.data ≠ [] :=
  fun hc => h ((string_data_nil_iff s).mp hc)

theorem ne_empty_of_containsSubStr (dst s : String)
    (h : containsSubStr dst s = true) (hd : dst ≠ "") : s ≠ "" := by
  intro hF
  subst hF
  have h2 : dst.data.isEmpty = true := h
  exact data_ne_of_ne_empty dst hd (List.isEmpty_iff.mp h2)

theorem tokenSub_self (dst s : String) : tokenSub dst dst s = s := by
  unfold tokenSub
  rw [tokenSubGo_self]

theorem wordSub_self (dst s : String) : wordSub dst dst s = s := by
  unfold wordSub
  rw [wordSubGo_self]

theorem rawReplace_self (dst s : String) : rawReplace dst dst s = s := by
  unfold rawReplace
  rw [rawReplaceGo_self]

theorem rawReplace_nil_code (dst s : String) : rawReplace "" dst s = s := by
  unfold rawReplace
  rw [show ("" : String).data = [] from rfl, rawReplaceGo_nil_code]

theorem tokenSub_unchanged (src dst s : String)
    (h : containsSubStr src s = false) : tokenSub src dst s = s := by
  unfold tokenSub
  rw [tokenSubGo_unchanged src.data dst.data _ _ _ h]

theorem wordSub_unchanged (src dst s : String)
    (h : containsSubStr src s = false) : wordSub src dst s = s := by
  unfold wordSub
  rw [wordSubGo_unchanged src.data dst.data _ _ _ h]

theorem tokenSub_changed_contains (src dst s : String)
    (h : tokenSub src dst s ≠ s) :
    containsSubStr dst (tokenSub src dst s) = true := by
  rcases tokenSubGo_changed src.data dst.data s.data.length true s.data with hc | hc
  · exact absurd (by unfold tokenSub; rw [hc]) h
  · exact hc

theorem wordSub_changed_contains (src dst s : String)
    (h : wordSub src dst s ≠ s) :
    containsSubStr dst (wordSub src dst s) = true := by
  rcases wordSubGo_changed src.data dst.data s.data.length none s.data with hc | hc
  · exact absurd (by unfold wordSub; rw [hc]) h
  · exact hc

theorem rawReplace_contains_str (src dst s : String) (hs : src ≠ "")
    (h : containsSubStr src s = true) :
    containsSubStr dst (rawReplace src dst s) = true :=
  rawReplaceGo_contains src.data dst.data (data_ne_of_ne_empty src hs)
    s.data s.data.length le_rfl h

theorem transformName_contains (name src dst : String) (hsrc : src ≠ "") :
    containsSubStr dst (transformNameForMarket name src dst) = true := by
  unfold transformNameForMarket
  by_cases hn : name = ""
  · rw [if_pos hn]
    exact containsSub_self dst.data
  · rw [if_neg hn]
    by_cases h1 : tokenSub src dst name = name
    · rw [if_neg (not_not_intro h1)]
      by_cases h2 : wordSub src dst name = name
      · rw [if_neg (not_not_intro h2)]
        by_cases h3 : containsSubStr src name = true
        · rw [if_pos h3]
          exact rawReplace_contains_str src dst name hsrc h3
        · rw [if_neg h3]
          show containsSub dst.data (name ++ " " ++ dst).data = true
          rw [String.data_append]
          exact containsSub_append_right dst.data _ _ (containsSub_self dst.data)
      · rw [if_pos h2]
        exact wordSub_changed_contains src dst name h2
    · rw [if_pos h1]
      exact tokenSub_changed_contains src dst name h1

theorem transformName_ne_empty (name src dst : String) (hd : dst ≠ "") :
    transformNameForMarket name src dst ≠ "" := by
  unfold transformNameForMarket
  by_cases hn : name = ""
  · rw [if_pos hn]
    exact hd
  · rw [if_neg hn]
    by_cases h1 : tokenSub src dst name = name
    · rw [if_neg (not_not_intro h1)]
      by_cases h2 : wordSub src dst name = name
      · rw [if_neg (not_not_intro h2)]
        by_cases h3 : containsSubStr src name = true
        · rw [if_pos h3]
          by_cases hsrc : src = ""
          · subst hsrc
            rw [rawReplace_nil_code]
            exact hn
          · exact ne_empty_of_containsSubStr dst _
              (rawReplace_contains_str src dst name hsrc h3) hd
        · rw [if_neg h3]
          intro hF
          have := congrArg String.data hF
          rw [String.data_append, String.data_append] at this
          simp at this
      · rw [if_pos h2]
        exact ne_empty_of_containsSubStr dst _
          (wordSub_changed_contains src dst name h2) hd
    · rw [if_pos h1]
      exact ne_empty_of_containsSubStr dst _
        (tokenSub_changed_contains src dst name h1) hd

theorem transformName_self_id (s dst : String) (hd : dst ≠ "")
    (hc : containsSubStr dst s = true) :
    transformNameForMarket s dst dst = s := by
  have hs : s ≠ "" := ne_empty_of_containsSubStr dst s hc hd
  unfold transformNameForMarket
  rw [if_neg hs]
  rw [if_neg (not_not_intro (tokenSub_self dst s))]
  rw [if_neg (not_not_intro (wordSub_self dst s))]
  rw [if_pos hc]
  exact rawReplace_self dst s

/-- Claim C4: on a non-empty name the four strategies are tried in the
fixed order token-boundary, whole-word, raw substring, suffix append, and
the first applicable one is the outcome; when the source code does not
occur at all, the first three are provably identities and the suffix is
appended; scenario B: Trends cloned DE→UK becomes Trends UK. -/
theorem rename_four_strategies (name src dst : String) (h : name ≠ "") :
    (tokenSub src dst name ≠ name →
        transformNameForMarket name src dst = tokenSub src dst name)
  ∧ (tokenSub src dst name = name → wordSub src dst name ≠ name →
        transformNameForMarket name src dst = wordSub src dst name)
  ∧ (tokenSub src dst name = name → wordSub src dst name = name →
        containsSubStr src name = true →
        transformNameForMarket name src dst = rawReplace src dst name)
  ∧ (containsSubStr src name = false →
        tokenSub src dst name = name ∧ wordSub src dst name = name
          ∧ transformNameForMarket name src dst = name ++ " " ++ dst)
  ∧ transformNameForMarket "Trends" "DE" "UK" = "Trends UK" := by
  refine ⟨?_, ?_, ?_, ?_, by decide⟩
  · intro h1
    unfold transformNameForMarket
    rw [if_neg h, if_pos h1]
  · intro h1 h2
    unfold transformNameForMarket
    rw [if_neg h, if_neg (not_not_intro h1), if_pos h2]
  · intro h1 h2 h3
    unfold transformNameForMarket
    rw [if_neg h, if_neg (not_not_intro h1), if_neg (not_not_intro h2), if_pos h3]
  · intro h3
    have h1 := tokenSub_unchanged src dst name h3
    have h2 := wordSub_unchanged src dst name h3
    refine ⟨h1, h2, ?_⟩
    unfold transformNameForMarket
    rw [if_neg h, if_neg (not_not_intro h1), if_neg (not_not_intro h2),
      if_neg (by simp [h3])]

/-- Witness for rename_four_strategies at scenario B. -/
theorem rename_four_strategies_witness :
    ("Trends" : String) ≠ ""
  ∧ containsSubStr "DE" "Trends" = false
  ∧ transformNameForMarket "Trends" "DE" "UK" = "Trends" ++ " " ++ "UK" := by
  refine ⟨by decide, by decide, ?_⟩
  exact ((rename_four_strategies "Trends" "DE" "UK" (by decide)).2.2.2.1
    (by decide)).2.2

/-- Claim C10: an empty (or missing — None is falsy like the empty string)
source name makes the rename return exactly the target market code, and
with a non-empty target code the rename never returns an empty name. -/
theorem rename_empty_name_fallback (src dst : String) (hd : dst ≠ "") :
    transformNameForMarket "" src dst = dst
  ∧ (∀ name, transformNameForMarket name src dst ≠ "") := by
  constructor
  · unfold transformNameForMarket
    rw [if_pos rfl]
  · intro name
    exact transformName_ne_empty name src dst hd

/-- Witness for rename_empty_name_fallback. -/
theorem rename_empty_name_fallback_witness :
    ("UK" : String) ≠ ""
  ∧ transformNameForMarket "" "DE" "UK" = "UK"
  ∧ transformNameForMarket "Trends" "DE" "UK" ≠ "" :=
  ⟨by decide, (rename_empty_name_fallback "DE" "UK" (by decide)).1,
   (rename_empty_name_fallback "DE" "UK" (by decide)).2 "Trends"⟩

/-! ## Lemmas: idempotence of the transform on the name (claim C5) -/

theorem toDigitsCore_len_le (b : Nat) : ∀ (f n : Nat) (ds : List Char),
    ds.length ≤ (Nat.toDigitsCore b f n ds).length := by
  intro f
  induction f with
  | zero => intro n ds; simp [Nat.toDigitsCore]
  | succ f ih =>
    intro n ds
    simp only [Nat.toDigitsCore]
    split
    · simp
    · exact le_trans (by simp) (ih (n / b) (Nat.digitChar (n % b) :: ds))

theorem toDigits_ne_nil (b n : Nat) : Nat.toDigits b n ≠ [] := by
  unfold Nat.toDigits
  simp only [Nat.toDigitsCore]
  split
  · simp
  · intro h
    have := toDigitsCore_len_le b n (n / b) [Nat.digitChar (n % b)]
    rw [h] at this
    simp at this

theorem natRepr_ne_empty (n : Nat) : Nat.repr n ≠ "" := by
  intro h
  apply toDigits_ne_nil 10 n
  have h2 : (Nat.repr n).data = ("" : String).data := by rw [h]
  simpa [Nat.repr, List.asString] using h2

theorem int_toString_ne_empty (n : Int) : toString n ≠ "" := by
  show Int.repr n ≠ ""
  cases n with
  | ofNat m => exact natRepr_ne_empty m
  | negSucc m =>
    intro h
    have h2 := congrArg String.data h
    simp only [Int.repr, String.data_append] at h2
    simp at h2

theorem mpCodeOf_ne_empty (mp : Int) : mpCodeOf mp ≠ "" := by
  unfold mpCodeOf MP_CODE_BY_ID
  split_ifs <;> simp only [Option.getD_some, Option.getD_none]
  · decide
  · decide
  · decide
  · decide
  · decide
  · exact int_toString_ne_empty mp

theorem fixConstraintsMp_constraints (d : Int) (r : Rule) :
    (fixConstraintsMp d r).constraints
      = r.constraints.map (fun c =>
          if c.defId = "marketplaceId"
          then { c with values := c.values.map (fixMpVal d) } else c) := by
  cases r with
  | mk cs rs => rfl

theorem fixTopRuleMp_constraints (d : Int) (r : Rule) :
    (fixTopRuleMp d r).constraints
      = r.constraints.map (fun c =>
          if c.defId = "marketplaceId"
          then { c with values := c.values.map (fixMpVal d) } else c) := by
  cases r with
  | mk cs rs => rfl

theorem fixTopRuleMp_subRules (d : Int) (r : Rule) :
    (fixTopRuleMp d r).subRules = r.subRules.map (fixConstraintsMp d) := by
  cases r with
  | mk cs rs => rfl

theorem hygTriggers_mpfix (d : Int) (c : Constraint) :
    hygTriggers (if c.defId = "marketplaceId"
                 then { c with values := c.values.map (fixMpVal d) } else c)
      = hygTriggers c := by
  by_cases h : c.defId = "marketplaceId"
  · rw [if_pos h]
    have hkey : strToLower c.defId = "marketplaceid" := by rw [h]; decide
    unfold hygTriggers
    rw [show ({ c with values := c.values.map (fixMpVal d) } : Constraint).defId
        = c.defId from rfl]
    rw [hkey]
    simp
  · rw [if_neg h]

theorem anyHygTriggers_mpfix_cs (d : Int) (cs : List Constraint) :
    (cs.map (fun c =>
        if c.defId = "marketplaceId"
        then { c with values := c.values.map (fixMpVal d) } else c)).any hygTriggers
      = cs.any hygTriggers := by
  rw [list_any_map2]
  apply list_any_congr
  intro c _
  exact hygTriggers_mpfix d c

theorem anyWalkedHygTrigger_update (b : Basic) (s d : Int) :
    anyWalkedHygTrigger (updateBasicMarketplace b s d) = anyWalkedHygTrigger b := by
  unfold anyWalkedHygTrigger updateBasicMarketplace
  rw [← List.map_append, list_any_map2]
  apply list_any_congr
  intro r _
  rw [fixTopRuleMp_constraints, fixTopRuleMp_subRules, anyHygTriggers_mpfix_cs]
  congr 1
  rw [list_any_map2]
  apply list_any_congr
  intro sr _
  rw [fixConstraintsMp_constraints, anyHygTriggers_mpfix_cs]

theorem transformCore_some_inv (qj : QueryJson) (t : Int) (bid : String)
    (res : TransformResult) (h : transformCore qj t bid = some res) :
    ∃ srcMp, qj.basic.marketplaceId = some srcMp
      ∧ res.newName = transformNameForMarket (qj.name.getD ("BE_" ++ bid))
          (mpCodeOf srcMp) (mpCodeOf t)
      ∧ res.basic.marketplaceId = some t
      ∧ (HYGIENE_BY_MP t = none → anyWalkedHygTrigger res.basic = false) := by
  unfold transformCore at h
  cases hsrc : qj.basic.marketplaceId with
  | none => rw [hsrc] at h; cases h
  | some srcMp =>
    rw [hsrc] at h
    simp only [] at h
    refine ⟨srcMp, rfl, ?_⟩
    cases hhy : HYGIENE_BY_MP t with
    | some hy =>
      rw [hhy] at h
      simp only [] at h
      cases h
      exact ⟨rfl, rfl, fun hF => Option.noConfusion hF⟩
    | none =>
      rw [hhy] at h
      simp only [] at h
      by_cases hg : (replaceHygieneInBasic
          (updateBasicMarketplace qj.basic srcMp t) 0).2.1 = true
      · rw [if_pos hg] at h; cases h
      · rw [if_neg hg] at h
        cases h
        refine ⟨rfl, rfl, fun _ => ?_⟩
        rw [replaceHygieneInBasic_flag] at hg
        exact Bool.not_eq_true _ ▸ (Bool.eq_false_iff.mpr hg)

theorem transformCore_second_run (res : TransformResult) (t : Int) (bid2 : String)
    (hmp : res.basic.marketplaceId = some t)
    (hguard : HYGIENE_BY_MP t = none →
        anyWalkedHygTrigger (updateBasicMarketplace res.basic t t) = false) :
    (transformCore
        { name := some res.newName
          basic := res.basic
          queryString := res.queryString } t bid2).map
        TransformResult.newName
      = some (transformNameForMarket res.newName (mpCodeOf t) (mpCodeOf t)) := by
  unfold transformCore
  rw [show ({ name := some res.newName
              basic := res.basic
              queryString := res.queryString } : QueryJson).basic.marketplaceId
      = res.basic.marketplaceId from rfl]
  rw [hmp]
  simp only []
  cases hhy : HYGIENE_BY_MP t with
  | some hy => rfl
  | none =>
    have hflag : (replaceHygieneInBasic
        (updateBasicMarketplace res.basic t t) 0).2.1 = false := by
      rw [replaceHygieneInBasic_flag]
      exact hguard hhy
    rw [if_neg (by rw [hflag]; exact Bool.false_ne_true)]
    rfl

/-- Claim C5: applying the transform a second time with the same target to
the definition produced by the first application (its new name, rewritten
basic tree and query string) leaves the name unchanged — no cumulative
suffixing. -/
theorem transform_name_idempotent (qj : QueryJson) (t : Int) (bid : String)
    (res : TransformResult) (h : transformCore qj t bid = some res)
    (bid2 : String) :
    (transformCore
        { name := some res.newName
          basic := res.basic
          queryString := res.queryString } t bid2).map
        TransformResult.newName = some res.newName := by
  obtain ⟨srcMp, hsrc, hname, hmp, hnone⟩ := transformCore_some_inv qj t bid res h
  have hdst : mpCodeOf t ≠ "" := mpCodeOf_ne_empty t
  have hcontains : containsSubStr (mpCodeOf t) res.newName = true := by
    rw [hname]
    exact transformName_contains _ _ _ (mpCodeOf_ne_empty srcMp)
  have hguard : HYGIENE_BY_MP t = none →
      anyWalkedHygTrigger (updateBasicMarketplace res.basic t t) = false := by
    intro hhy
    rw [anyWalkedHygTrigger_update]
    exact hnone hhy
  rw [transformCore_second_run res t bid2 hmp hguard]
  rw [transformName_self_id res.newName (mpCodeOf t) hdst hcontains]

/-- Witness for transform_name_idempotent at scenario A. -/
theorem transform_name_idempotent_witness :
    transformCore scenarioAQj 3 "123" = some scenarioARes
  ∧ (transformCore
        { name := some scenarioARes.newName
          basic := scenarioARes.basic
          queryString := scenarioARes.queryString } 3 "x").map
      TransformResult.newName = some scenarioARes.newName :=
  ⟨by decide,
   transform_name_idempotent scenarioAQj 3 "123" scenarioARes (by decide) "x"⟩

end Outbound

